import Mathlib

/-!
Verification of the moemail activation/email service against its
natural-language specification.  The data model and the request handlers
relevant to the claims are embedded shallowly: each handler becomes a pure
function from a database state (lists of rows) and its request inputs to a
result and a new database state.  Database transactions follow the usual
semantics: a callback that returns normally commits, a callback that throws
rolls back (the throwing case is modelled by an explicit flag where a claim
needs it).
-/

namespace Moemail

/-- Status of an activation code: `unused`, `used`, `expired` or `disabled`
(schema column `activation_code.status`). -/
inductive CodeStatus
  | unused
  | used
  | expired
  | disabled
deriving DecidableEq, Repr

/-- A row of the `user` table (the columns the claims touch).  `enabled`
defaults to `true` (migration 0003). -/
structure UserRec where
  id : Nat
  username : String
  password : String
  enabled : Bool
deriving DecidableEq, Repr

/-- A row of the `email` table. Timestamps are epoch milliseconds. -/
structure EmailRec where
  id : Nat
  address : String
  userId : Nat
  createdAt : Int
  expiresAt : Int
  isPermanent : Bool
deriving DecidableEq, Repr

/-- A row of the `role` table. -/
structure RoleRec where
  id : Nat
  name : String
deriving DecidableEq, Repr

/-- A row of the `user_role` association table. -/
structure UserRoleRec where
  userId : Nat
  roleId : Nat
deriving DecidableEq, Repr

/-- A row of the `activation_code` table. -/
structure CodeRec where
  id : Nat
  code : String
  status : CodeStatus
  createdAt : Int
  expiresAt : Option Int
  usedAt : Option Int
  usedByUserId : Option Nat
deriving DecidableEq, Repr

/-- A row of the `api_keys` table (only ownership matters here). -/
structure ApiKeyRec where
  id : Nat
  userId : Nat
deriving DecidableEq, Repr

/-- The persistent database state: one list of rows per table. -/
structure DbState where
  users : List UserRec
  emails : List EmailRec
  roles : List RoleRec
  userRoles : List UserRoleRec
  activationCodes : List CodeRec
  apiKeys : List ApiKeyRec
deriving DecidableEq, Repr

/-- `new Date('9999-01-01T00:00:00.000Z')` in epoch milliseconds: the
sentinel expiry stored on permanent emails. -/
def permanentExpiry : Int := 253370764800000

/-- `EMAIL_DOMAINS` handling shared by the handlers: the configured string is
split on commas and the first entry is used; a missing configuration falls
back to `"moemail.app"`. -/
def firstDomain (domainString : Option String) : String :=
  match domainString with
  | none => "moemail.app"
  | some ds => (ds.splitOn ",").headD "moemail.app"

/-- `findOrCreateRole` from `app/api/auth/activate/route.ts`: look the role
up by name and insert a fresh row (with the supplied generated id) when it is
absent; returns the id of the role to use. -/
def findOrCreateRole (s : DbState) (roleName : String) (newRoleId : Nat) :
    Nat × DbState :=
  match s.roles.find? (fun r => r.name == roleName) with
  | some role => (role.id, s)
  | none => (newRoleId, { s with roles := s.roles ++ [⟨newRoleId, roleName⟩] })

/-- Modelled from the spec: `assignRoleToUser` lives in `lib/auth`, which is
not among the provided sources; per the spec ("assigns the student role") it
records the user–role association. -/
def assignRoleToUser (s : DbState) (userId roleId : Nat) : DbState :=
  { s with userRoles := s.userRoles ++ [⟨userId, roleId⟩] }

/-- Domain errors of the activation transaction, in the order the handler
checks them. -/
inductive ActivateError
  | codeNotFound
  | codeNotUnused
  | codeExpired
  | usernameTaken
  | emailTaken
deriving DecidableEq, Repr

/-- Result of the activation transaction. -/
inductive ActivateResult
  | err (e : ActivateError)
  | ok (userId : Nat) (username : String) (emailId : Nat) (address : String)
deriving DecidableEq, Repr

/-- The transaction body of `POST /api/auth/activate` (after rate limiting
and schema validation).  `now` is the request time, `passwordHash` the result
of `hashPassword`, and `newUserId`/`newRoleId`/`newEmailId` the generated
row ids.  Every branch returns normally, so the transaction commits in every
branch — including the one that lazily marks an expired code. -/
def activate (s : DbState) (activationCode username passwordHash permanentEmail : String)
    (domainString : Option String) (now : Int)
    (newUserId newRoleId newEmailId : Nat) : ActivateResult × DbState :=
  match s.activationCodes.find? (fun c => c.code == activationCode) with
  | none => (.err .codeNotFound, s)
  | some codeRecord =>
    if codeRecord.status ≠ .unused then (.err .codeNotUnused, s)
    else if (match codeRecord.expiresAt with
             | some e => decide (e < now)
             | none => false) then
      (.err .codeExpired,
        { s with activationCodes := s.activationCodes.map (fun c =>
            if c.id == codeRecord.id then { c with status := .expired } else c) })
    else if s.users.any (fun u => u.username == username) then
      (.err .usernameTaken, s)
    else
      let domain := firstDomain domainString
      let fullEmailAddress := permanentEmail ++ "@" ++ domain
      if s.emails.any (fun e => e.address == fullEmailAddress.toLower) then
        (.err .emailTaken, s)
      else
        let newUser : UserRec := ⟨newUserId, username, passwordHash, true⟩
        let s1 := { s with users := s.users ++ [newUser] }
        let (roleId, s2) := findOrCreateRole s1 "student" newRoleId
        let s3 := assignRoleToUser s2 newUserId roleId
        let newEmail : EmailRec :=
          ⟨newEmailId, fullEmailAddress, newUserId, now, permanentExpiry, true⟩
        let s4 := { s3 with emails := s3.emails ++ [newEmail] }
        let s5 := { s4 with activationCodes := s4.activationCodes.map (fun c =>
            if c.id == codeRecord.id then
              { c with status := .used, usedAt := some now,
                       usedByUserId := some newUserId }
            else c) }
        (.ok newUserId username newEmailId fullEmailAddress, s5)

/-- Domain-level result of the permanent-email promotion transaction
(`POST` handler of the permanent-email route). -/
inductive PromoteResult
  | alreadyHasPermanent
  | notFound
  | alreadyPermanent
  | emailExpired
  | ok (emailId : Nat) (address : String) (createdAt expiresAt : Int)
deriving DecidableEq, Repr

/-- The transaction body of the student permanent-email promotion: reject if
the user already has a permanent email, if the target does not exist or is
not owned, if it is already permanent, or if it is already expired;
otherwise flip `isPermanent` and reset `expiresAt` to the sentinel. -/
def setPermanentEmail (s : DbState) (userId emailId : Nat) (now : Int) :
    PromoteResult × DbState :=
  if s.emails.any (fun e => e.userId == userId && e.isPermanent) then
    (.alreadyHasPermanent, s)
  else
    match s.emails.find? (fun e => e.id == emailId && e.userId == userId) with
    | none => (.notFound, s)
    | some targetEmail =>
      if targetEmail.isPermanent then (.alreadyPermanent, s)
      else if targetEmail.expiresAt < now then (.emailExpired, s)
      else
        (.ok emailId targetEmail.address targetEmail.createdAt permanentExpiry,
          { s with emails := s.emails.map (fun e =>
              if e.id == emailId then
                { e with isPermanent := true, expiresAt := permanentExpiry }
              else e) })

/-- The request context of the promotion handler: the resolved identity
(`getUserId`), the `SET_PERMANENT_EMAIL` permission check, the extra
student-role check, whether the body passes the zod schema, and whether the
database transaction throws (the handler's catch-all turns any uncaught
exception into a 500). -/
structure PromoteCtx where
  userId : Option Nat
  hasSetPermanentPermission : Bool
  userRoleIsStudent : Bool
  bodyValid : Bool
  txThrows : Bool
deriving DecidableEq, Repr

/-- Outcome of the full promotion handler, auth and validation included. -/
inductive PromoteOutcome
  | unauthorized
  | forbidden
  | invalidBody
  | internalError
  | domain (r : PromoteResult)
deriving DecidableEq, Repr

/-- The full `POST` promotion handler: 401 without an identity, 403 without
the permission or the student role, 400 on invalid body, 500 when the
transaction throws (rolling back), else the transaction body. -/
def promoteHandler (ctx : PromoteCtx) (s : DbState) (emailId : Nat) (now : Int) :
    PromoteOutcome × DbState :=
  match ctx.userId with
  | none => (.unauthorized, s)
  | some uid =>
    if !ctx.hasSetPermanentPermission then (.forbidden, s)
    else if !ctx.userRoleIsStudent then (.forbidden, s)
    else if !ctx.bodyValid then (.invalidBody, s)
    else if ctx.txThrows then (.internalError, s)
    else
      let (r, s') := setPermanentEmail s uid emailId now
      (.domain r, s')

/-- HTTP status attached to each promotion outcome by the handler. -/
def promoteStatus : PromoteOutcome → Nat
  | .unauthorized => 401
  | .forbidden => 403
  | .invalidBody => 400
  | .internalError => 500
  | .domain .alreadyHasPermanent => 400
  | .domain .notFound => 404
  | .domain .alreadyPermanent => 400
  | .domain .emailExpired => 400
  | .domain (.ok _ _ _ _) => 200

/-- Character class of the `[a-zA-Z0-9_-]` pattern used for address names. -/
def isAddrChar (c : Char) : Bool :=
  ('a' ≤ c && c ≤ 'z') || ('A' ≤ c && c ≤ 'Z') || ('0' ≤ c && c ≤ '9') ||
    c == '_' || c == '-'

/-- Body of the admin add-email request (`POST /api/admin/users/[id]/emails`),
after zod parsing with its defaults applied. -/
structure AddEmailReq where
  isPermanent : Bool
  customAddress : Option String
  expiryHours : Nat
deriving DecidableEq, Repr

/-- Result of the admin add-email handler (post-authorization part). -/
inductive AddEmailResult
  | userNotFound
  | userDisabled
  | alreadyHasPermanent
  | badName
  | badNameLength
  | addressTaken
  | ok (emailId : Nat) (address : String)
deriving DecidableEq, Repr

/-- The admin add-email handler: the emperor adds a temporary or permanent
email for a user.  A JS-falsy (absent or empty) custom address falls back to
a random name (`generateRandomEmail`), modelled by the `randomName` input. -/
def adminAddEmail (s : DbState) (targetId : Nat) (req : AddEmailReq)
    (domainString : Option String) (randomName : String) (now : Int)
    (newEmailId : Nat) : AddEmailResult × DbState :=
  match s.users.find? (fun u => u.id == targetId) with
  | none => (.userNotFound, s)
  | some targetUser =>
    if !targetUser.enabled then (.userDisabled, s)
    else if req.isPermanent &&
        s.emails.any (fun e => e.userId == targetId && e.isPermanent) then
      (.alreadyHasPermanent, s)
    else
      let domain := firstDomain domainString
      let custom := req.customAddress.getD ""
      let addrResult : AddEmailResult ⊕ String :=
        if custom ≠ "" then
          if !(custom.data.all isAddrChar) then .inl .badName
          else if custom.length < 2 || custom.length > 30 then .inl .badNameLength
          else
            let emailAddress := custom.toLower ++ "@" ++ domain
            if s.emails.any (fun e => e.address == emailAddress) then
              .inl .addressTaken
            else .inr emailAddress
        else .inr (randomName ++ "@" ++ domain)
      match addrResult with
      | .inl err => (err, s)
      | .inr emailAddress =>
        let expiresAt : Int :=
          if req.isPermanent then permanentExpiry
          else now + (req.expiryHours : Int) * 3600000
        let newEmail : EmailRec :=
          ⟨newEmailId, emailAddress.toLower, targetId, now, expiresAt,
            req.isPermanent⟩
        (.ok newEmailId emailAddress.toLower,
          { s with emails := s.emails ++ [newEmail] })

/-- Body of the admin update-email request
(`PUT /api/admin/users/[id]/emails/[emailId]`): every field optional. -/
structure UpdateEmailReq where
  isPermanent : Option Bool
  expiryHours : Option Nat
  customAddress : Option String
deriving DecidableEq, Repr

/-- Result of the admin update-email handler (post-authorization part). -/
inductive UpdateEmailResult
  | notFound
  | userDisabled
  | otherPermanentExists
  | addressTaken
  | ok (emailId : Nat)
deriving DecidableEq, Repr

/-- The admin update-email handler.  Mirrors the source exactly: the
`expiresAt` update fires from `expiryHours` whenever the request's
`isPermanent` field is not literally `true` — in particular on an email that
is already permanent when `isPermanent` is omitted. -/
def adminUpdateEmail (s : DbState) (userId emailId : Nat) (req : UpdateEmailReq)
    (domainString : Option String) (now : Int) : UpdateEmailResult × DbState :=
  match s.emails.find? (fun e => e.id == emailId && e.userId == userId) with
  | none => (.notFound, s)
  | some targetEmail =>
    if !((s.users.find? (fun u => u.id == userId)).any (fun u => u.enabled)) then
      (.userDisabled, s)
    else
      let permConflict : Bool :=
        match req.isPermanent with
        | some b =>
          if b && !targetEmail.isPermanent then
            match s.emails.find? (fun o => o.userId == userId && o.isPermanent) with
            | some existing => existing.id != emailId
            | none => false
          else false
        | none => false
      if permConflict then (.otherPermanentExists, s)
      else
        let updExpires : Option Int :=
          if req.expiryHours.isSome && !(req.isPermanent == some true) then
            some (now + ((req.expiryHours.getD 0 : Nat) : Int) * 3600000)
          else if req.isPermanent == some true then some permanentExpiry
          else none
        let newAddress : Option String :=
          req.customAddress.map (fun a =>
            (a ++ "@" ++ firstDomain domainString).toLower)
        let addrConflict : Bool :=
          match newAddress with
          | some addr =>
            match s.emails.find? (fun e2 => e2.address == addr) with
            | some existing => existing.id != emailId
            | none => false
          | none => false
        if addrConflict then (.addressTaken, s)
        else
          (.ok emailId,
            { s with emails := s.emails.map (fun e =>
                if e.id == emailId then
                  { e with
                    isPermanent := req.isPermanent.getD e.isPermanent,
                    expiresAt := updExpires.getD e.expiresAt,
                    address := newAddress.getD e.address }
                else e) })

/-- Result of the admin activation-code status update
(`PUT /api/admin/activation-codes/[id]`, post-authorization part). -/
inductive UpdateCodeResult
  | notFound
  | usedOnlyDisable
  | usedNeedsUser
  | ok
deriving DecidableEq, Repr

/-- The admin status update of a single activation code: a code currently
`used` may only be set to `disabled`; setting `used` requires a bound user;
setting `expired` on a not-yet-expired code also records `usedAt`. -/
def updateCodeStatus (s : DbState) (codeId : Nat) (newStatus : CodeStatus)
    (now : Int) : UpdateCodeResult × DbState :=
  match s.activationCodes.find? (fun c => c.id == codeId) with
  | none => (.notFound, s)
  | some existingCode =>
    if existingCode.status == .used && newStatus != .disabled then
      (.usedOnlyDisable, s)
    else if newStatus == .used && existingCode.usedByUserId == none then
      (.usedNeedsUser, s)
    else
      let setUsedAt := newStatus == .expired && existingCode.status != .expired
      (.ok,
        { s with activationCodes := s.activationCodes.map (fun c =>
            if c.id == codeId then
              { c with status := newStatus,
                       usedAt := if setUsedAt then some now else c.usedAt }
            else c) })

/-- Result of the admin activation-code deletion
(`DELETE /api/admin/activation-codes/[id]`, post-authorization part). -/
inductive DeleteCodeResult
  | notFound
  | usedUndeletable
  | ok
deriving DecidableEq, Repr

/-- The admin deletion of a single activation code: a code currently `used`
cannot be deleted. -/
def deleteCode (s : DbState) (codeId : Nat) : DeleteCodeResult × DbState :=
  match s.activationCodes.find? (fun c => c.id == codeId) with
  | none => (.notFound, s)
  | some existingCode =>
    if existingCode.status == .used then (.usedUndeletable, s)
    else
      (.ok, { s with activationCodes :=
        s.activationCodes.filter (fun c => !(c.id == codeId)) })

/-- The role names assigned to a user (the `userRoles`/`role` join). -/
def userRoleNames (s : DbState) (userId : Nat) : List String :=
  (s.userRoles.filter (fun ur => ur.userId == userId)).filterMap (fun ur =>
    (s.roles.find? (fun r => r.id == ur.roleId)).map (fun r => r.name))

/-- Result of the admin user deletion (`DELETE /api/admin/users/[id]`). -/
inductive DeleteUserResult
  | forbidden
  | notFound
  | isEmperor
  | txFailed
  | ok (emailsCount apiKeysCount activationCodesCount userRolesCount : Nat)
deriving DecidableEq, Repr

/-- HTTP status attached to each user-deletion outcome. -/
def deleteUserStatus : DeleteUserResult → Nat
  | .forbidden => 403
  | .notFound => 404
  | .isEmperor => 400
  | .txFailed => 500
  | .ok _ _ _ _ => 200

/-- The admin user deletion: after the permission, existence and emperor
checks, a single transaction nulls `usedByUserId` on the user's activation
codes, deletes the user's emails, API keys and role assignments, and finally
the user row; a throwing transaction rolls back (per the spec's
all-or-nothing transaction model for the `lib/db` wrapper, which is not
among the provided sources) and surfaces as a 500.  The success payload
reports the pre-deletion counts of the four related row sets. -/
def deleteUser (hasPermission txThrows : Bool) (s : DbState) (targetId : Nat) :
    DeleteUserResult × DbState :=
  if !hasPermission then (.forbidden, s)
  else
    match s.users.find? (fun u => u.id == targetId) with
    | none => (.notFound, s)
    | some _ =>
      if (userRoleNames s targetId).any (fun n => n == "emperor") then
        (.isEmperor, s)
      else if txThrows then (.txFailed, s)
      else
        let emailsCount := (s.emails.filter (fun e => e.userId == targetId)).length
        let apiKeysCount := (s.apiKeys.filter (fun k => k.userId == targetId)).length
        let codesCount :=
          (s.activationCodes.filter (fun c => c.usedByUserId == some targetId)).length
        let userRolesCount :=
          (s.userRoles.filter (fun ur => ur.userId == targetId)).length
        (.ok emailsCount apiKeysCount codesCount userRolesCount,
          { users := s.users.filter (fun u => !(u.id == targetId)),
            emails := s.emails.filter (fun e => !(e.userId == targetId)),
            roles := s.roles,
            userRoles := s.userRoles.filter (fun ur => !(ur.userId == targetId)),
            activationCodes := s.activationCodes.map (fun c =>
              if c.usedByUserId == some targetId then
                { c with usedByUserId := none }
              else c),
            apiKeys := s.apiKeys.filter (fun k => !(k.userId == targetId)) })

/-- The 36-character alphabet `A-Z0-9` used by `generateActivationCode`. -/
def codeAlphabet : List Char := "ABCDEFGHIJKLMNOPQRSTUVWXYZ0123456789".data

/-- One draw from the alphabet; `Math.floor(Math.random() * chars.length)`
is modelled by a stream `r` of indices below 36. -/
def pickChar (i : Fin 36) : Char := codeAlphabet.getD i.val 'A'

/-- One 4-character segment of a generated code, drawn at stream offset `k`. -/
def codeSegment (r : Nat → Fin 36) (k : Nat) : List Char :=
  [pickChar (r k), pickChar (r (k + 1)), pickChar (r (k + 2)), pickChar (r (k + 3))]

/-- `generateActivationCode`: three 4-character segments joined by hyphens,
consuming stream offsets `k`..`k+11`. -/
def generateActivationCode (r : Nat → Fin 36) (k : Nat) : String :=
  ⟨codeSegment r k ++ '-' :: codeSegment r (k + 4) ++ '-' :: codeSegment r (k + 8)⟩

/-- The per-code uniqueness retry loop of the batch generator: regenerate
while the code collides with one generated earlier in the batch, giving up
(the handler throws) after 100 attempts. -/
def pickCode (r : Nat → Fin 36) (seen : List String) :
    Nat → Nat → Option (String × Nat)
  | 0, _ => none
  | fuel + 1, pos =>
    let code := generateActivationCode r pos
    if seen.contains code then pickCode r seen fuel (pos + 12)
    else some (code, pos + 12)

/-- The batch loop: generate `n` more codes, threading the stream position
and the list of codes generated so far. -/
def generateCodesLoop (r : Nat → Fin 36) :
    Nat → Nat → List String → Option (List String)
  | 0, _, acc => some acc
  | n + 1, pos, acc =>
    match pickCode r acc 100 pos with
    | none => none
    | some (code, pos') => generateCodesLoop r n pos' (acc ++ [code])

/-- The code strings produced for a batch of `count`, if no retry loop
exhausts its 100 attempts. -/
def generateCodes (r : Nat → Fin 36) (count : Nat) : Option (List String) :=
  generateCodesLoop r count 0 []

/-- The expiry computed by the batch generator: `null` when `expiryDays` is
absent or `0` (JS falsy), else exactly `expiryDays` days after `now`. -/
def batchExpiry (expiryDays : Option Nat) (now : Int) : Option Int :=
  match expiryDays with
  | some d => if d > 0 then some (now + (d : Int) * 86400000) else none
  | none => none

/-- The insertion step of `POST /api/admin/activation-codes` (after the
permission check and schema validation): build the `count` rows and append
them, or insert nothing when generation failed (the handler returns 500). -/
def generateCodesPost (s : DbState) (count : Nat) (expiryDays : Option Nat)
    (r : Nat → Fin 36) (now : Int) (idBase : Nat) :
    Option (List CodeRec) × DbState :=
  match generateCodes r count with
  | none => (none, s)
  | some cs =>
    let recs : List CodeRec := cs.enum.map (fun p =>
      ⟨idBase + p.1, p.2, .unused, now, batchExpiry expiryDays now, none, none⟩)
    (some recs, { s with activationCodes := s.activationCodes ++ recs })

/-- The in-memory rate-limit table: ip ↦ (count, resetTime). -/
abbrev RateLimitMap := List (String × Nat × Int)

/-- `rateLimitMap.get(ip)`. -/
def mapGet (m : RateLimitMap) (ip : String) : Option (Nat × Int) :=
  (m.find? (fun p => p.1 == ip)).map (fun p => p.2)

/-- `rateLimitMap.set(ip, v)` (also covers the in-place `record.count++`). -/
def mapSet (m : RateLimitMap) (ip : String) (v : Nat × Int) : RateLimitMap :=
  if (m.find? (fun p => p.1 == ip)).isSome then
    m.map (fun p => if p.1 == ip then (p.1, v) else p)
  else m ++ [(ip, v)]

/-- `RATE_LIMIT_WINDOW`: 15 minutes in milliseconds. -/
def RATE_LIMIT_WINDOW : Int := 15 * 60 * 1000

/-- `RATE_LIMIT_MAX_ATTEMPTS`. -/
def RATE_LIMIT_MAX_ATTEMPTS : Nat := 5

/-- `checkRateLimit`: admit and start a fresh window when the ip has no
record or its window has passed; reject at 5 attempts; otherwise admit and
count. -/
def checkRateLimit (m : RateLimitMap) (ip : String) (now : Int) :
    Bool × RateLimitMap :=
  match mapGet m ip with
  | none => (true, mapSet m ip (1, now + RATE_LIMIT_WINDOW))
  | some (count, resetTime) =>
    if resetTime < now then (true, mapSet m ip (1, now + RATE_LIMIT_WINDOW))
    else if RATE_LIMIT_MAX_ATTEMPTS ≤ count then (false, m)
    else (true, mapSet m ip (count + 1, resetTime))

/-- Outcome of the outer activation `POST` handler. -/
inductive ActivatePostResult
  | rateLimited
  | invalidBody
  | txResult (r : ActivateResult)
deriving DecidableEq, Repr

/-- The outer activation `POST` handler: the rate limit runs first and a
rejected request is answered 429 before any database access. -/
def activatePost (m : RateLimitMap) (s : DbState) (ip : String)
    (bodyValid : Bool) (activationCode username passwordHash permanentEmail : String)
    (domainString : Option String) (now : Int)
    (newUserId newRoleId newEmailId : Nat) :
    ActivatePostResult × RateLimitMap × DbState :=
  let (allowed, m') := checkRateLimit m ip now
  if !allowed then (.rateLimited, m', s)
  else if !bodyValid then (.invalidBody, m', s)
  else
    let (r, s') := activate s activationCode username passwordHash
      permanentEmail domainString now newUserId newRoleId newEmailId
    (.txResult r, m', s')

/-- HTTP status of the outer activation handler's failure classes. -/
def activatePostStatus : ActivatePostResult → Nat
  | .rateLimited => 429
  | .invalidBody => 400
  | .txResult (.err _) => 400
  | .txResult (.ok _ _ _ _) => 200

/-- The number of admitted requests for `ip` with timestamp at most `bound`,
along a run of the rate limiter over the event list from initial table `m`. -/
def countAdmitted (ip : String) (bound : Int) :
    RateLimitMap → List (String × Int) → Nat
  | _, [] => 0
  | m, (j, t) :: es =>
    let (ok, m') := checkRateLimit m j t
    (if j == ip && ok && decide (t ≤ bound) then 1 else 0) +
      countAdmitted ip bound m' es

/-- A generated email id is fresh for the state (ids come from
`crypto.randomUUID`). -/
def freshEmailId (s : DbState) (id : Nat) : Prop := ∀ e ∈ s.emails, e.id ≠ id

/-- A generated user id is fresh for the state: no user row and no email
ownership mentions it. -/
def freshUserId (s : DbState) (uid : Nat) : Prop :=
  (∀ u ∈ s.users, u.id ≠ uid) ∧ (∀ e ∈ s.emails, e.userId ≠ uid)

/-- States reachable by the email-creating and email-updating operations
(activation redemption, student promotion, admin add-email, admin
update-email) from any state with an empty email table; generated ids are
fresh. -/
inductive EReach : DbState → Prop
  | init (s : DbState) : s.emails = [] → EReach s
  | stepActivate (s : DbState) (code username pw pe : String) (ds : Option String)
      (now : Int) (nu nr ne : Nat) : EReach s → freshUserId s nu →
      freshEmailId s ne →
      EReach (activate s code username pw pe ds now nu nr ne).2
  | stepPromote (s : DbState) (uid emailId : Nat) (now : Int) : EReach s →
      EReach (setPermanentEmail s uid emailId now).2
  | stepAdminAdd (s : DbState) (targetId : Nat) (req : AddEmailReq)
      (ds : Option String) (rn : String) (now : Int) (ne : Nat) : EReach s →
      freshEmailId s ne →
      EReach (adminAddEmail s targetId req ds rn now ne).2
  | stepAdminUpdate (s : DbState) (uid emailId : Nat) (req : UpdateEmailReq)
      (ds : Option String) (now : Int) : EReach s →
      EReach (adminUpdateEmail s uid emailId req ds now).2

/-- Like `EReach` but without the admin update-email operation. -/
inductive EReachNoUpdate : DbState → Prop
  | init (s : DbState) : s.emails = [] → EReachNoUpdate s
  | stepActivate (s : DbState) (code username pw pe : String) (ds : Option String)
      (now : Int) (nu nr ne : Nat) : EReachNoUpdate s → freshUserId s nu →
      freshEmailId s ne →
      EReachNoUpdate (activate s code username pw pe ds now nu nr ne).2
  | stepPromote (s : DbState) (uid emailId : Nat) (now : Int) : EReachNoUpdate s →
      EReachNoUpdate (setPermanentEmail s uid emailId now).2
  | stepAdminAdd (s : DbState) (targetId : Nat) (req : AddEmailReq)
      (ds : Option String) (rn : String) (now : Int) (ne : Nat) :
      EReachNoUpdate s → freshEmailId s ne →
      EReachNoUpdate (adminAddEmail s targetId req ds rn now ne).2

/-- One step of the system by any modelled operation other than admin user
deletion. -/
inductive SysStepND : DbState → DbState → Prop
  | activate (s : DbState) (code username pw pe : String) (ds : Option String)
      (now : Int) (nu nr ne : Nat) :
      SysStepND s (activate s code username pw pe ds now nu nr ne).2
  | promote (ctx : PromoteCtx) (s : DbState) (emailId : Nat) (now : Int) :
      SysStepND s (promoteHandler ctx s emailId now).2
  | adminAdd (s : DbState) (targetId : Nat) (req : AddEmailReq)
      (ds : Option String) (rn : String) (now : Int) (ne : Nat) :
      SysStepND s (adminAddEmail s targetId req ds rn now ne).2
  | adminUpdate (s : DbState) (uid emailId : Nat) (req : UpdateEmailReq)
      (ds : Option String) (now : Int) :
      SysStepND s (adminUpdateEmail s uid emailId req ds now).2
  | codeStatus (s : DbState) (codeId : Nat) (st : CodeStatus) (now : Int) :
      SysStepND s (updateCodeStatus s codeId st now).2
  | codeDelete (s : DbState) (codeId : Nat) :
      SysStepND s (deleteCode s codeId).2
  | codeGenerate (s : DbState) (count : Nat) (ed : Option Nat)
      (r : Nat → Fin 36) (now : Int) (idBase : Nat) :
      SysStepND s (generateCodesPost s count ed r now idBase).2

/-- One step of the system by any modelled operation, admin user deletion
included. -/
inductive SysStep : DbState → DbState → Prop
  | ofND (s s' : DbState) : SysStepND s s' → SysStep s s'
  | userDelete (perm thr : Bool) (s : DbState) (targetId : Nat) :
      SysStep s (deleteUser perm thr s targetId).2

/-- Any number of system steps. -/
def SysTrace : DbState → DbState → Prop := Relation.ReflTransGen SysStep

/-- The permanent emails a user owns. -/
def permEmailsOf (s : DbState) (uid : Nat) : List EmailRec :=
  s.emails.filter (fun e => e.userId == uid && e.isPermanent)

/-- Invariant: each user has at most one permanent email. -/
def atMostOnePermanent (s : DbState) : Prop :=
  ∀ uid, (permEmailsOf s uid).length ≤ 1

/-- Invariant: every permanent email carries the sentinel expiry. -/
def permanentSentinel (s : DbState) : Prop :=
  ∀ e ∈ s.emails, e.isPermanent = true → e.expiresAt = permanentExpiry

/-- Email ids are pairwise distinct (primary key). -/
def emailIdsNodup (s : DbState) : Prop :=
  (s.emails.map (fun e => e.id)).Nodup

/-- Activation-code ids are pairwise distinct (primary key). -/
def codeIdsNodup (s : DbState) : Prop :=
  (s.activationCodes.map (fun c => c.id)).Nodup

/-! ## C2: atomicity of activation errors -/

/-- A state holding one unused activation code that expired at time 5. -/
def expiredCodeState : DbState :=
  ⟨[], [], [], [], [⟨1, "AAAA", .unused, 0, some 5, none, none⟩], []⟩

/-- C2 (counterexample): an activation request at time 10 against
`expiredCodeState` returns the domain-specific "code expired" error, yet the
activation-code row is modified (its status is set to `expired` and the
transaction commits because the callback returns normally), contradicting
the all-or-nothing claim. -/
theorem claimC2_counterexample :
    (activate expiredCodeState "AAAA" "bob" "pw" "mail" none 10 100 101 102).1 =
      .err .codeExpired ∧
    (activate expiredCodeState "AAAA" "bob" "pw" "mail" none 10 100 101 102).2 ≠
      expiredCodeState := by
  decide

/-- C2 (amended): an activation request that returns the code-not-found,
code-not-unused, username-taken or email-taken error changes no persistent
state; the code-expired error leaves every table unchanged except that the
matched code's status is set to `expired`. -/
theorem claimC2_amended (s : DbState)
    (code username pw pe : String) (ds : Option String) (now : Int)
    (nu nr ne : Nat) :
    (∀ er : ActivateError, er ≠ .codeExpired →
      (activate s code username pw pe ds now nu nr ne).1 = .err er →
      (activate s code username pw pe ds now nu nr ne).2 = s) ∧
    ((activate s code username pw pe ds now nu nr ne).1 = .err .codeExpired →
      ∃ cr, s.activationCodes.find? (fun c => c.code == code) = some cr ∧
        cr.status = .unused ∧
        (activate s code username pw pe ds now nu nr ne).2 =
          { s with activationCodes := s.activationCodes.map (fun c =>
              if c.id == cr.id then { c with status := .expired } else c) }) := by
  unfold activate
  cases hf : s.activationCodes.find? (fun c => c.code == code) with
  | none =>
    exact ⟨fun er _ _ => rfl, fun h => by simp at h⟩
  | some cr =>
    by_cases h1 : cr.status ≠ CodeStatus.unused
    · constructor
      · intro er her h
        simp [h1]
      · intro h
        simp [h1] at h
    · by_cases h2 : (match cr.expiresAt with
        | some e => decide (e < now)
        | none => false) = true
      · constructor
        · intro er her h
          simp [h1, h2] at h
          exact absurd h.symm her
        · intro _
          refine ⟨cr, rfl, by simpa using h1, ?_⟩
          simp [h1, h2]
      · by_cases h3 : s.users.any (fun u => u.username == username) = true
        · constructor
          · intro er her h
            simp [h1, h2, h3]
          · intro h
            simp [h1, h2, h3] at h
        · by_cases h4 : s.emails.any (fun e =>
            e.address == (pe ++ "@" ++ firstDomain ds).toLower) = true
          · constructor
            · intro er her h
              simp [h1, h2, h3, h4]
            · intro h
              simp [h1, h2, h3, h4] at h
          · constructor
            · intro er her h
              simp [h1, h2, h3, h4] at h
            · intro h
              simp [h1, h2, h3, h4] at h

/-- C2 (witness): the amended theorem applied to a concrete request whose
code does not exist — no state change. -/
theorem claimC2_witness :
    (activate expiredCodeState "BBBB" "bob" "pw" "mail" none 10 100 101 102).2 =
      expiredCodeState :=
  (claimC2_amended expiredCodeState "BBBB" "bob" "pw" "mail" none 10 100 101 102).1
    .codeNotFound (by decide) (by decide)

/-! ## C8: status mapping of the promotion endpoint -/

/-- C8: the promotion endpoint's HTTP status by failure class — 401 without
a resolved identity, 403 without the permission or the student role, 400 on
schema-invalid bodies, 404 when the target email is missing or unowned
(reached when the user has no permanent email yet), 500 when the transaction
throws. -/
theorem claimC8_promote_status (ctx : PromoteCtx) (s : DbState)
    (emailId : Nat) (now : Int) :
    (ctx.userId = none →
      promoteStatus (promoteHandler ctx s emailId now).1 = 401) ∧
    (∀ uid, ctx.userId = some uid →
      (ctx.hasSetPermanentPermission = false ∨ ctx.userRoleIsStudent = false) →
      promoteStatus (promoteHandler ctx s emailId now).1 = 403) ∧
    (∀ uid, ctx.userId = some uid → ctx.hasSetPermanentPermission = true →
      ctx.userRoleIsStudent = true → ctx.bodyValid = false →
      promoteStatus (promoteHandler ctx s emailId now).1 = 400) ∧
    (∀ uid, ctx.userId = some uid → ctx.hasSetPermanentPermission = true →
      ctx.userRoleIsStudent = true → ctx.bodyValid = true →
      ctx.txThrows = false →
      s.emails.any (fun e => e.userId == uid && e.isPermanent) = false →
      s.emails.find? (fun e => e.id == emailId && e.userId == uid) = none →
      promoteStatus (promoteHandler ctx s emailId now).1 = 404) ∧
    (∀ uid, ctx.userId = some uid → ctx.hasSetPermanentPermission = true →
      ctx.userRoleIsStudent = true → ctx.bodyValid = true →
      ctx.txThrows = true →
      promoteStatus (promoteHandler ctx s emailId now).1 = 500) := by
  refine ⟨?_, ?_, ?_, ?_, ?_⟩
  · intro h
    simp [promoteHandler, h, promoteStatus]
  · intro uid h hperm
    rcases hperm with hp | hp <;>
      simp [promoteHandler, h, hp, promoteStatus]
  · intro uid h hp hr hb
    simp [promoteHandler, h, hp, hr, hb, promoteStatus]
  · intro uid h hp hr hb ht hnoperm hfind
    simp [promoteHandler, h, hp, hr, hb, ht, setPermanentEmail, hnoperm,
      hfind, promoteStatus]
  · intro uid h hp hr hb ht
    simp [promoteHandler, h, hp, hr, hb, ht, promoteStatus]

/-- The empty database. -/
def emptyDb : DbState := ⟨[], [], [], [], [], []⟩

/-- C8 (witness): each status clause applied at a concrete request. -/
theorem claimC8_witness :
    promoteStatus (promoteHandler ⟨none, true, true, true, false⟩ emptyDb 1 0).1 = 401 ∧
    promoteStatus (promoteHandler ⟨some 1, false, true, true, false⟩ emptyDb 1 0).1 = 403 ∧
    promoteStatus (promoteHandler ⟨some 1, true, true, false, false⟩ emptyDb 1 0).1 = 400 ∧
    promoteStatus (promoteHandler ⟨some 1, true, true, true, false⟩ emptyDb 1 0).1 = 404 ∧
    promoteStatus (promoteHandler ⟨some 1, true, true, true, true⟩ emptyDb 1 0).1 = 500 :=
  ⟨(claimC8_promote_status ⟨none, true, true, true, false⟩ emptyDb 1 0).1 rfl,
   (claimC8_promote_status ⟨some 1, false, true, true, false⟩ emptyDb 1 0).2.1 1 rfl
     (Or.inl rfl),
   (claimC8_promote_status ⟨some 1, true, true, false, false⟩ emptyDb 1 0).2.2.1 1 rfl
     rfl rfl rfl,
   (claimC8_promote_status ⟨some 1, true, true, true, false⟩ emptyDb 1 0).2.2.2.1 1 rfl
     rfl rfl rfl rfl (by decide) (by decide),
   (claimC8_promote_status ⟨some 1, true, true, true, true⟩ emptyDb 1 0).2.2.2.2 1 rfl
     rfl rfl rfl rfl⟩

/-! ## C10: batch generation of activation codes -/

/-- A character of the code alphabet `A-Z0-9`. -/
def isCodeChar (c : Char) : Bool :=
  ('A' ≤ c && c ≤ 'Z') || ('0' ≤ c && c ≤ '9')

/-- The `XXXX-XXXX-XXXX` format: 14 characters, hyphens at positions 4 and
9, all other characters drawn from `A-Z0-9`. -/
def codeFormatOk (str : String) : Bool :=
  match str.data with
  | [a, b, c, d, h1, e, f, g, h, h2, i, j, k, l] =>
    h1 == '-' && h2 == '-' && [a, b, c, d, e, f, g, h, i, j, k, l].all isCodeChar
  | _ => false

/-- Every alphabet draw is in the `A-Z0-9` class. -/
theorem isCodeChar_pickChar : ∀ i : Fin 36, isCodeChar (pickChar i) = true := by
  decide

/-- Every generated code matches the `XXXX-XXXX-XXXX` format. -/
theorem generateActivationCode_format (r : Nat → Fin 36) (k : Nat) :
    codeFormatOk (generateActivationCode r k) = true := by
  simp [generateActivationCode, codeSegment, codeFormatOk, isCodeChar_pickChar]

/-- A successful retry loop returns a code outside `seen` that is a
generated code. -/
theorem pickCode_spec (r : Nat → Fin 36) (seen : List String) :
    ∀ fuel pos c pos', pickCode r seen fuel pos = some (c, pos') →
      seen.contains c = false ∧ ∃ p, c = generateActivationCode r p := by
  intro fuel
  induction fuel with
  | zero => intro pos c pos' h; simp [pickCode] at h
  | succ n ih =>
    intro pos c pos' h
    unfold pickCode at h
    by_cases hc : seen.contains (generateActivationCode r pos) = true
    · simp only [hc, if_true] at h
      exact ih _ _ _ h
    · simp only [hc, if_false, Bool.false_eq_true] at h
      simp only [Option.some.injEq, Prod.mk.injEq] at h
      refine ⟨?_, pos, h.1.symm⟩
      rw [h.1] at hc
      simpa using hc

/-- A successful batch loop extends the accumulator by `n` codes, preserves
distinctness, and yields only generated codes. -/
theorem generateCodesLoop_spec (r : Nat → Fin 36) :
    ∀ n pos acc out, generateCodesLoop r n pos acc = some out →
      out.length = acc.length + n ∧ (acc.Nodup → out.Nodup) ∧
        (∀ c ∈ out, c ∈ acc ∨ ∃ p, c = generateActivationCode r p) := by
  intro n
  induction n with
  | zero =>
    intro pos acc out h
    simp only [generateCodesLoop, Option.some.injEq] at h
    subst h
    exact ⟨rfl, fun hn => hn, fun c hc => Or.inl hc⟩
  | succ m ih =>
    intro pos acc out h
    unfold generateCodesLoop at h
    cases hp : pickCode r acc 100 pos with
    | none => rw [hp] at h; simp at h
    | some cp =>
      rw [hp] at h
      obtain ⟨hnotin, p, hcgen⟩ := pickCode_spec r acc 100 pos cp.1 cp.2 (by
        simpa using hp)
      obtain ⟨hl, hnd, hgen⟩ := ih _ _ _ h
      have hmem : cp.1 ∉ acc := by simpa using hnotin
      refine ⟨by simp [hl]; omega, fun ha => hnd ?_, fun c hc => ?_⟩
      · simp [List.nodup_append, ha, hmem]
      · rcases hgen c hc with hin | hg
        · rcases List.mem_append.mp hin with h1 | h1
          · exact Or.inl h1
          · simp only [List.mem_singleton] at h1
            subst h1
            exact Or.inr ⟨p, hcgen⟩
        · exact Or.inr hg

/-- C10: a validated batch-generation request that completes produces
exactly `count` pairwise-distinct codes in `XXXX-XXXX-XXXX` format over
`A-Z0-9`, inserts them with status `unused`, `usedAt` and `usedByUserId`
null, `createdAt` the request time, and `expiresAt` null when `expiryDays`
is absent or zero and exactly `expiryDays` days after the request time
otherwise. -/
theorem claimC10_generate (s : DbState) (count : Nat) (ed : Option Nat)
    (r : Nat → Fin 36) (now : Int) (idBase : Nat) (cs : List String)
    (hlo : 1 ≤ count) (hhi : count ≤ 100)
    (hgen : generateCodes r count = some cs) :
    cs.length = count ∧ cs.Nodup ∧ (∀ c ∈ cs, codeFormatOk c = true) ∧
    (∃ recs : List CodeRec,
      generateCodesPost s count ed r now idBase =
        (some recs, { s with activationCodes := s.activationCodes ++ recs }) ∧
      recs.map (fun rec => rec.code) = cs ∧
      ∀ rec ∈ recs, rec.status = .unused ∧ rec.usedAt = none ∧
        rec.usedByUserId = none ∧ rec.createdAt = now ∧
        rec.expiresAt = batchExpiry ed now) ∧
    ((ed = none ∨ ed = some 0) → batchExpiry ed now = none) ∧
    (∀ d : Nat, ed = some d → 0 < d →
      batchExpiry ed now = some (now + (d : Int) * 86400000)) := by
  obtain ⟨hl, hnd, hgen'⟩ := generateCodesLoop_spec r count 0 [] cs hgen
  refine ⟨by simpa using hl, hnd List.nodup_nil, ?_, ?_, ?_, ?_⟩
  · intro c hc
    rcases hgen' c hc with hin | ⟨p, hp⟩
    · simp at hin
    · rw [hp]
      exact generateActivationCode_format r p
  · refine ⟨cs.enum.map (fun p =>
      ⟨idBase + p.1, p.2, .unused, now, batchExpiry ed now, none, none⟩), ?_, ?_, ?_⟩
    · simp [generateCodesPost, hgen]
    · rw [List.map_map]
      exact List.enum_map_snd cs
    · intro rec hrec
      simp only [List.mem_map] at hrec
      obtain ⟨p, _, hp⟩ := hrec
      subst hp
      exact ⟨rfl, rfl, rfl, rfl, rfl⟩
  · rintro (h | h) <;> simp [h, batchExpiry]
  · intro d hd hdpos
    subst hd
    simp [batchExpiry, hdpos]

/-- A concrete random stream cycling through the alphabet. -/
def streamR : Nat → Fin 36 := fun i => ⟨i % 36, Nat.mod_lt i (by omega)⟩

/-- C10 (witness): the theorem applied to a concrete batch of 3 codes. -/
theorem claimC10_witness :
    generateCodes streamR 3 =
      some ["ABCD-EFGH-IJKL", "MNOP-QRST-UVWX", "YZ01-2345-6789"] ∧
    ["ABCD-EFGH-IJKL", "MNOP-QRST-UVWX", "YZ01-2345-6789"].Nodup ∧
    (["ABCD-EFGH-IJKL", "MNOP-QRST-UVWX", "YZ01-2345-6789"].length = 3) := by
  have h := claimC10_generate emptyDb 3 none streamR 0 0
    ["ABCD-EFGH-IJKL", "MNOP-QRST-UVWX", "YZ01-2345-6789"]
    (by decide) (by decide) (by decide)
  exact ⟨by decide, h.2.1, h.1⟩

/-! ## C9: the in-process rate limiter -/

/-- The rate limiter's effect on a single ip's record. -/
def rlStep (σ : Option (Nat × Int)) (t : Int) : Bool × Option (Nat × Int) :=
  match σ with
  | none => (true, some (1, t + RATE_LIMIT_WINDOW))
  | some (c, rt) =>
    if rt < t then (true, some (1, t + RATE_LIMIT_WINDOW))
    else if RATE_LIMIT_MAX_ATTEMPTS ≤ c then (false, σ)
    else (true, some (c + 1, rt))

/-- Lookup on a cons cell of the rate table. -/
theorem mapGet_cons (k : String) (w : Nat × Int) (tl : RateLimitMap)
    (ip : String) :
    mapGet ((k, w) :: tl) ip = if k == ip then some w else mapGet tl ip := by
  unfold mapGet
  by_cases hk : (k == ip) = true <;> simp [List.find?_cons, hk]

/-- Updating the entries of key `j` in place does not change lookups of a
different key. -/
theorem mapGet_map_update (tl : RateLimitMap) (ip j : String) (v : Nat × Int)
    (h : ip ≠ j) :
    mapGet (tl.map (fun p => if p.1 == j then (p.1, v) else p)) ip =
      mapGet tl ip := by
  induction tl with
  | nil => rfl
  | cons hd tl ih =>
    obtain ⟨k, w⟩ := hd
    by_cases hk : k = j
    · subst hk
      have hb : (k == ip) = false := by
        simp only [beq_eq_false_iff_ne]
        exact fun e => h e.symm
      simp only [List.map_cons, beq_self_eq_true, if_true]
      rw [mapGet_cons, mapGet_cons, hb]
      simpa using ih
    · have hkb : (k == j) = false := by simpa using hk
      simp only [List.map_cons, hkb, Bool.false_eq_true, if_false]
      rw [mapGet_cons, mapGet_cons]
      by_cases hip : (k == ip) = true
      · simp [hip]
      · have hipb : (k == ip) = false := by simpa using hip
        rw [hipb]
        simp only [Bool.false_eq_true, if_false]
        exact ih

/-- Setting a key stores its value. -/
theorem mapGet_set_self (m : RateLimitMap) (ip : String) (v : Nat × Int) :
    mapGet (mapSet m ip v) ip = some v := by
  unfold mapSet
  by_cases h : (m.find? (fun p => p.1 == ip)).isSome
  · simp only [h, if_true]
    induction m with
    | nil => simp at h
    | cons hd tl ih =>
      obtain ⟨k, w⟩ := hd
      by_cases hk : k = ip
      · subst hk
        simp only [List.map_cons, beq_self_eq_true, if_true]
        rw [mapGet_cons]
        simp
      · have hkb : (k == ip) = false := by simpa using hk
        simp only [List.map_cons, hkb, Bool.false_eq_true, if_false]
        rw [mapGet_cons, hkb]
        simp only [Bool.false_eq_true, if_false]
        apply ih
        simpa [List.find?_cons, hkb] using h
  · simp only [h, if_false, Bool.false_eq_true]
    rw [Option.not_isSome_iff_eq_none] at h
    unfold mapGet
    rw [List.find?_append, h]
    simp

/-- Setting a key leaves other keys' lookups unchanged. -/
theorem mapGet_set_other (m : RateLimitMap) (ip j : String) (v : Nat × Int)
    (h : ip ≠ j) : mapGet (mapSet m j v) ip = mapGet m ip := by
  unfold mapSet
  by_cases hs : (m.find? (fun p => p.1 == j)).isSome
  · simp only [hs, if_true]
    exact mapGet_map_update m ip j v h
  · simp only [hs, if_false, Bool.false_eq_true]
    have hsingle : List.find? (fun p => p.1 == ip) [(j, v)] = none := by
      have hb : (j == ip) = false := by
        simp only [beq_eq_false_iff_ne]
        exact fun e => h e.symm
      simp [List.find?_cons, hb]
    unfold mapGet
    rw [List.find?_append, hsingle]
    cases List.find? (fun p => p.1 == ip) m <;> rfl

/-- `checkRateLimit` admits exactly as the single-ip step does. -/
theorem checkRateLimit_fst (m : RateLimitMap) (ip : String) (t : Int) :
    (checkRateLimit m ip t).1 = (rlStep (mapGet m ip) t).1 := by
  unfold checkRateLimit rlStep
  cases mapGet m ip with
  | none => rfl
  | some cr =>
    obtain ⟨c, rt⟩ := cr
    by_cases h1 : rt < t
    · simp [h1]
    · by_cases h2 : RATE_LIMIT_MAX_ATTEMPTS ≤ c <;> simp [h1, h2]

/-- `checkRateLimit` updates the requesting ip's record as the single-ip
step does. -/
theorem checkRateLimit_get_self (m : RateLimitMap) (ip : String) (t : Int) :
    mapGet (checkRateLimit m ip t).2 ip = (rlStep (mapGet m ip) t).2 := by
  unfold checkRateLimit rlStep
  cases h : mapGet m ip with
  | none => simpa using mapGet_set_self m ip (1, t + RATE_LIMIT_WINDOW)
  | some cr =>
    obtain ⟨c, rt⟩ := cr
    by_cases h1 : rt < t
    · simpa [h1] using mapGet_set_self m ip (1, t + RATE_LIMIT_WINDOW)
    · by_cases h2 : RATE_LIMIT_MAX_ATTEMPTS ≤ c
      · simpa [h1, h2] using h
      · simpa [h1, h2] using mapGet_set_self m ip (c + 1, rt)

/-- A request from another ip never touches this ip's record. -/
theorem checkRateLimit_get_other (m : RateLimitMap) (ip j : String) (t : Int)
    (h : ip ≠ j) :
    mapGet (checkRateLimit m j t).2 ip = mapGet m ip := by
  unfold checkRateLimit
  cases hj : mapGet m j with
  | none => simpa using mapGet_set_other m ip j _ h
  | some cr =>
    obtain ⟨c, rt⟩ := cr
    by_cases h1 : rt < t
    · simpa [h1] using mapGet_set_other m ip j _ h
    · by_cases h2 : RATE_LIMIT_MAX_ATTEMPTS ≤ c
      · simp [h1, h2]
      · simpa [h1, h2] using mapGet_set_other m ip j _ h

/-- A saturated in-window record rejects and leaves the table unchanged. -/
theorem checkRateLimit_reject (m : RateLimitMap) (ip : String) (now : Int)
    (c : Nat) (rt : Int) (h : mapGet m ip = some (c, rt)) (hle : now ≤ rt)
    (hge : RATE_LIMIT_MAX_ATTEMPTS ≤ c) :
    checkRateLimit m ip now = (false, m) := by
  unfold checkRateLimit
  rw [h]
  simp [not_lt.mpr hle, hge]

/-- No admitted request is counted against a bound that every event time
exceeds. -/
theorem countAdmitted_none (ip : String) (bound : Int) :
    ∀ (es : List (String × Int)) (m : RateLimitMap),
      (∀ e ∈ es, bound < e.2) → countAdmitted ip bound m es = 0 := by
  intro es
  induction es with
  | nil => intro m _; rfl
  | cons hd tl ih =>
    intro m hall
    obtain ⟨j, t⟩ := hd
    rcases hcr : checkRateLimit m j t with ⟨ok, m'⟩
    have ht : bound < t := hall (j, t) (by simp)
    simp only [countAdmitted, hcr]
    rw [ih m' (fun e he => hall e (List.mem_cons_of_mem _ he))]
    simp [not_le.mpr ht]

/-- Core window bound: with a live record `(c, rt)` for `ip` and a bound at
most `rt`, a chronological event run admits at most `5 - c` more requests
from `ip` within the bound. -/
theorem countAdmitted_le (ip : String) (bound : Int) :
    ∀ (es : List (String × Int)) (m : RateLimitMap) (c : Nat) (rt : Int),
      List.Pairwise (fun a b => a.2 ≤ b.2) es →
      mapGet m ip = some (c, rt) → bound ≤ rt → c ≤ 5 →
      countAdmitted ip bound m es ≤ 5 - c := by
  intro es
  induction es with
  | nil => intro m c rt _ _ _ _; simp [countAdmitted]
  | cons hd tl ih =>
    intro m c rt hpw hget hbd hc5
    obtain ⟨j, t⟩ := hd
    rcases hcr : checkRateLimit m j t with ⟨ok, m'⟩
    simp only [countAdmitted, hcr]
    have hpwtl : List.Pairwise (fun a b : String × Int => a.2 ≤ b.2) tl :=
      hpw.of_cons
    by_cases hj : j = ip
    · subst hj
      by_cases htb : t ≤ bound
      · have hnr : ¬(rt < t) := not_lt.mpr (le_trans htb hbd)
        by_cases h5 : RATE_LIMIT_MAX_ATTEMPTS ≤ c
        · have hok : false = ok ∧ m = m' := by
            have hcr2 := (checkRateLimit_reject m j t c rt hget
              (not_lt.mp hnr) h5).symm.trans hcr
            exact ⟨congrArg Prod.fst hcr2, congrArg Prod.snd hcr2⟩
          have hcond : ((j == j) && ok && decide (t ≤ bound)) = false := by
            simp [← hok.1]
          rw [hcond, ← hok.2]
          simpa using ih m c rt hpwtl hget hbd hc5
        · have hok : ok = true := by
            have hfst := checkRateLimit_fst m j t
            rw [hcr, hget] at hfst
            simpa [rlStep, hnr, h5] using hfst
          have hm' : mapGet m' j = some (c + 1, rt) := by
            have hself := checkRateLimit_get_self m j t
            rw [hcr, hget] at hself
            simpa [rlStep, hnr, h5] using hself
          have h5' : c < 5 := by simpa [RATE_LIMIT_MAX_ATTEMPTS] using h5
          have htl := ih m' (c + 1) rt hpwtl hm' hbd (by omega)
          have hcond : ((j == j) && ok && decide (t ≤ bound)) = true := by
            simp [hok, htb]
          rw [hcond, if_pos rfl]
          omega
      · have h0 : countAdmitted j bound m' tl = 0 := by
          apply countAdmitted_none
          intro e he
          have hrel := List.rel_of_pairwise_cons hpw he
          simp only [not_le] at htb
          simp only at hrel
          omega
        have hcond : ((j == j) && ok && decide (t ≤ bound)) = false := by
          simp [htb]
        rw [h0, hcond]
        simp
    · have hjb : (j == ip) = false := by simpa using hj
      have hm' : mapGet m' ip = mapGet m ip := by
        have hoth := checkRateLimit_get_other m ip j t (fun he => hj he.symm)
        rw [hcr] at hoth
        exact hoth
      have hcond : ((j == ip) && ok && decide (t ≤ bound)) = false := by
        simp [hjb]
      rw [hcond]
      simpa using ih m' c rt hpwtl (hm'.trans hget) hbd hc5

/-- C9: the activation rate limiter —
(1) a request with no record or a passed window is admitted and restarts the
counter at 1 with a fresh 15-minute reset time;
(2) a request inside the window with a stored count below 5 is admitted and
increments the count;
(3) once the stored count reaches 5, a request inside the window is rejected
and leaves the table unchanged;
(4) a rejected request is answered with status 429 before any database
access, leaving the database untouched;
(5) along any chronological run, at most 5 requests from an ip are admitted
with times within the 15-minute window opened by that ip's counter-resetting
request. -/
theorem claimC9_rate_limit :
    (∀ (m : RateLimitMap) (ip : String) (now : Int),
      (mapGet m ip = none ∨ ∃ c rt, mapGet m ip = some (c, rt) ∧ rt < now) →
      checkRateLimit m ip now = (true, mapSet m ip (1, now + RATE_LIMIT_WINDOW))) ∧
    (∀ (m : RateLimitMap) (ip : String) (now : Int) (c : Nat) (rt : Int),
      mapGet m ip = some (c, rt) → now ≤ rt → c < RATE_LIMIT_MAX_ATTEMPTS →
      checkRateLimit m ip now = (true, mapSet m ip (c + 1, rt))) ∧
    (∀ (m : RateLimitMap) (ip : String) (now : Int) (c : Nat) (rt : Int),
      mapGet m ip = some (c, rt) → now ≤ rt → RATE_LIMIT_MAX_ATTEMPTS ≤ c →
      checkRateLimit m ip now = (false, m)) ∧
    (∀ (m : RateLimitMap) (s : DbState) (ip : String) (bv : Bool)
      (ac un pw pe : String) (ds : Option String) (now : Int) (nu nr ne : Nat),
      (checkRateLimit m ip now).1 = false →
      activatePost m s ip bv ac un pw pe ds now nu nr ne =
        (.rateLimited, (checkRateLimit m ip now).2, s) ∧
      activatePostStatus .rateLimited = 429) ∧
    (∀ (m : RateLimitMap) (es : List (String × Int)) (ip : String) (t0 : Int),
      List.Pairwise (fun a b : String × Int => a.2 ≤ b.2) ((ip, t0) :: es) →
      (mapGet m ip = none ∨ ∃ c rt, mapGet m ip = some (c, rt) ∧ rt < t0) →
      countAdmitted ip (t0 + RATE_LIMIT_WINDOW) m ((ip, t0) :: es) ≤ 5) := by
  refine ⟨?_, ?_, ?_, ?_, ?_⟩
  · intro m ip now h
    unfold checkRateLimit
    rcases h with h | ⟨c, rt, h, hrt⟩
    · rw [h]
    · rw [h]
      simp [hrt]
  · intro m ip now c rt h hle hlt
    unfold checkRateLimit
    rw [h]
    simp [not_lt.mpr hle, Nat.not_le.mpr hlt]
  · intro m ip now c rt h hle hge
    unfold checkRateLimit
    rw [h]
    simp [not_lt.mpr hle, hge]
  · intro m s ip bv ac un pw pe ds now nu nr ne hrej
    rcases hcr : checkRateLimit m ip now with ⟨ok, m'⟩
    rw [hcr] at hrej
    simp only at hrej
    subst hrej
    exact ⟨by simp [activatePost, hcr], rfl⟩
  · intro m es ip t0 hpw hreset
    rcases hcr : checkRateLimit m ip t0 with ⟨ok, m'⟩
    have hok : ok = true := by
      have hfst := checkRateLimit_fst m ip t0
      rw [hcr] at hfst
      rcases hreset with h | ⟨c, rt, h, hrt⟩
      · rw [h] at hfst
        simpa [rlStep] using hfst
      · rw [h] at hfst
        simpa [rlStep, hrt] using hfst
    have hm' : mapGet m' ip = some (1, t0 + RATE_LIMIT_WINDOW) := by
      have hself := checkRateLimit_get_self m ip t0
      rw [hcr] at hself
      rcases hreset with h | ⟨c, rt, h, hrt⟩
      · rw [h] at hself
        simpa [rlStep] using hself
      · rw [h] at hself
        simpa [rlStep, hrt] using hself
    simp only [countAdmitted, hcr]
    have htl := countAdmitted_le ip (t0 + RATE_LIMIT_WINDOW) es m' 1
      (t0 + RATE_LIMIT_WINDOW) hpw.of_cons hm' le_rfl (by omega)
    have ht0 : t0 ≤ t0 + RATE_LIMIT_WINDOW := by
      simp [RATE_LIMIT_WINDOW]
    simp only [hok, beq_self_eq_true, Bool.and_self, Bool.true_and,
      decide_eq_true_eq, if_pos ht0]
    omega

/-- C9 (witness): clause (3) applied at a concrete saturated record, and
clause (5) at a concrete 7-request run: only 5 admissions are counted. -/
theorem claimC9_witness :
    checkRateLimit [("a", 5, 900000)] "a" 10 = (false, [("a", 5, 900000)]) ∧
    countAdmitted "a" 900000 []
      [("a", 0), ("a", 1), ("a", 2), ("a", 3), ("a", 4), ("a", 5), ("a", 6)] ≤ 5 :=
  ⟨claimC9_rate_limit.2.2.1 [("a", 5, 900000)] "a" 10 5 900000 (by decide)
      (by decide) (by decide),
   claimC9_rate_limit.2.2.2.2 []
      [("a", 1), ("a", 2), ("a", 3), ("a", 4), ("a", 5), ("a", 6)] "a" 0
      (by decide) (Or.inl (by decide))⟩

/-! ## C7: admin user deletion -/

/-- C7: with the `MANAGE_STUDENTS` permission, a target user that exists and
is not an emperor — a throwing transaction persists nothing and answers 500;
a successful transaction deletes the user row together with all of the
user's emails, API keys and role assignments, nulls `usedByUserId` on the
user's activation codes, leaves everything else unchanged, and reports the
pre-deletion counts of the four related row sets. -/
theorem claimC7_delete_user (thr : Bool) (s : DbState) (targetId : Nat)
    (u : UserRec)
    (hfind : s.users.find? (fun x => x.id == targetId) = some u)
    (hemp : (userRoleNames s targetId).any (fun n => n == "emperor") = false) :
    (thr = true →
      deleteUser true thr s targetId = (.txFailed, s) ∧
      deleteUserStatus (deleteUser true thr s targetId).1 = 500) ∧
    (thr = false →
      (deleteUser true thr s targetId).1 =
        .ok (s.emails.filter (fun e => e.userId == targetId)).length
            (s.apiKeys.filter (fun k => k.userId == targetId)).length
            (s.activationCodes.filter
              (fun c => c.usedByUserId == some targetId)).length
            (s.userRoles.filter (fun ur => ur.userId == targetId)).length ∧
      (deleteUser true thr s targetId).2.users =
        s.users.filter (fun x => !(x.id == targetId)) ∧
      (deleteUser true thr s targetId).2.emails =
        s.emails.filter (fun e => !(e.userId == targetId)) ∧
      (deleteUser true thr s targetId).2.apiKeys =
        s.apiKeys.filter (fun k => !(k.userId == targetId)) ∧
      (deleteUser true thr s targetId).2.userRoles =
        s.userRoles.filter (fun ur => !(ur.userId == targetId)) ∧
      (deleteUser true thr s targetId).2.activationCodes =
        s.activationCodes.map (fun c =>
          if c.usedByUserId == some targetId then
            { c with usedByUserId := none }
          else c) ∧
      (deleteUser true thr s targetId).2.roles = s.roles) := by
  constructor
  · intro hthr
    subst hthr
    refine ⟨?_, ?_⟩ <;> simp [deleteUser, hfind, hemp, deleteUserStatus]
  · intro hthr
    subst hthr
    refine ⟨?_, ?_, ?_, ?_, ?_, ?_, ?_⟩ <;> simp [deleteUser, hfind, hemp]

/-- A concrete state: one student with one redeemed activation code. -/
def wStudentState : DbState :=
  ⟨[⟨7, "stu", "p", true⟩], [], [⟨2, "student"⟩], [⟨7, 2⟩],
    [⟨1, "C", .used, 0, none, some 0, some 7⟩], []⟩

/-- C7 (witness): deleting the concrete student reports the counts and nulls
the code's user reference. -/
theorem claimC7_witness :
    (deleteUser true false wStudentState 7).1 = .ok 0 0 1 1 ∧
    (deleteUser true false wStudentState 7).2.activationCodes =
      [⟨1, "C", .used, 0, none, some 0, none⟩] := by
  have h := (claimC7_delete_user false wStudentState 7 ⟨7, "stu", "p", true⟩
    (by decide) (by decide)).2 rfl
  refine ⟨?_, ?_⟩
  · rw [h.1]
    decide
  · rw [h.2.2.2.2.2.1]
    decide

/-! ## C1: the activation transaction's success path -/

section ActivateSuccess

variable (s : DbState) (code username pw pe : String) (ds : Option String)
variable (now : Int) (nu nr ne : Nat) (cr : CodeRec) (l1 l2 : List CodeRec)

/-- Master equation of a successful activation when a `student` role row
already exists. -/
theorem activate_eq_of_role_some
    (hsplit : s.activationCodes = l1 ++ cr :: l2)
    (hcode : cr.code = code)
    (hl1 : ∀ c ∈ l1, c.code ≠ code)
    (hid : ∀ c ∈ l1 ++ l2, c.id ≠ cr.id)
    (hunused : cr.status = .unused)
    (hnotexp : ∀ e : Int, cr.expiresAt = some e → now ≤ e)
    (huser : ∀ u ∈ s.users, u.username ≠ username)
    (hemail : ∀ e ∈ s.emails, e.address ≠ (pe ++ "@" ++ firstDomain ds).toLower)
    (role : RoleRec)
    (hrolecase : s.roles.find? (fun x => x.name == "student") = some role) :
    activate s code username pw pe ds now nu nr ne =
      (.ok nu username ne (pe ++ "@" ++ firstDomain ds),
       { users := s.users ++ [⟨nu, username, pw, true⟩],
         emails := s.emails ++
           [⟨ne, pe ++ "@" ++ firstDomain ds, nu, now, permanentExpiry, true⟩],
         roles := s.roles,
         userRoles := s.userRoles ++ [⟨nu, role.id⟩],
         activationCodes := l1 ++
           (⟨cr.id, cr.code, .used, cr.createdAt, cr.expiresAt, some now,
             some nu⟩ : CodeRec) :: l2,
         apiKeys := s.apiKeys }) := by
  have hfindc : s.activationCodes.find? (fun c => c.code == code) = some cr := by
    rw [hsplit, List.find?_append]
    have h1 : l1.find? (fun c => c.code == code) = none := by
      rw [List.find?_eq_none]
      intro c hc
      simpa using hl1 c hc
    rw [h1]
    simp [List.find?_cons, hcode]
  have hstatus : (cr.status ≠ CodeStatus.unused) = False := by simp [hunused]
  have hexp : (match cr.expiresAt with
      | some e => decide (e < now)
      | none => false) = false := by
    cases hce : cr.expiresAt with
    | none => rfl
    | some e => simpa using not_lt.mpr (hnotexp e hce)
  have husern : (s.users.any fun u => u.username == username) = false := by
    rw [List.any_eq_false]
    intro u hu
    simpa using huser u hu
  have hemn : (s.emails.any fun e =>
      e.address == (pe ++ "@" ++ firstDomain ds).toLower) = false := by
    rw [List.any_eq_false]
    intro e he
    simpa using hemail e he
  unfold activate
  rw [hfindc]
  simp only [hstatus, hexp, husern, hemn, if_false, Bool.false_eq_true,
    findOrCreateRole, assignRoleToUser]
  rw [hrolecase]
  have hl1m : l1.map (fun c =>
      if c.id = cr.id then
        (⟨c.id, c.code, .used, c.createdAt, c.expiresAt, some now,
          some nu⟩ : CodeRec)
      else c) = l1 := by
    conv_rhs => rw [← List.map_id l1]
    apply List.map_congr_left
    intro c hc
    simp [hid c (List.mem_append_left _ hc)]
  have hl2m : l2.map (fun c =>
      if c.id = cr.id then
        (⟨c.id, c.code, .used, c.createdAt, c.expiresAt, some now,
          some nu⟩ : CodeRec)
      else c) = l2 := by
    conv_rhs => rw [← List.map_id l2]
    apply List.map_congr_left
    intro c hc
    simp [hid c (List.mem_append_right _ hc)]
  have hmapeq : s.activationCodes.map (fun c =>
      if c.id = cr.id then
        (⟨c.id, c.code, .used, c.createdAt, c.expiresAt, some now,
          some nu⟩ : CodeRec)
      else c) = l1 ++
        (⟨cr.id, cr.code, .used, cr.createdAt, cr.expiresAt, some now,
          some nu⟩ : CodeRec) :: l2 := by
    rw [hsplit, List.map_append, List.map_cons, hl1m, hl2m]
    simp
  simp [hmapeq]

/-- Master equation of a successful activation when no `student` role row
exists: the role row is inserted first. -/
theorem activate_eq_of_role_none
    (hsplit : s.activationCodes = l1 ++ cr :: l2)
    (hcode : cr.code = code)
    (hl1 : ∀ c ∈ l1, c.code ≠ code)
    (hid : ∀ c ∈ l1 ++ l2, c.id ≠ cr.id)
    (hunused : cr.status = .unused)
    (hnotexp : ∀ e : Int, cr.expiresAt = some e → now ≤ e)
    (huser : ∀ u ∈ s.users, u.username ≠ username)
    (hemail : ∀ e ∈ s.emails, e.address ≠ (pe ++ "@" ++ firstDomain ds).toLower)
    (hrolecase : s.roles.find? (fun x => x.name == "student") = none) :
    activate s code username pw pe ds now nu nr ne =
      (.ok nu username ne (pe ++ "@" ++ firstDomain ds),
       { users := s.users ++ [⟨nu, username, pw, true⟩],
         emails := s.emails ++
           [⟨ne, pe ++ "@" ++ firstDomain ds, nu, now, permanentExpiry, true⟩],
         roles := s.roles ++ [⟨nr, "student"⟩],
         userRoles := s.userRoles ++ [⟨nu, nr⟩],
         activationCodes := l1 ++
           (⟨cr.id, cr.code, .used, cr.createdAt, cr.expiresAt, some now,
             some nu⟩ : CodeRec) :: l2,
         apiKeys := s.apiKeys }) := by
  have hfindc : s.activationCodes.find? (fun c => c.code == code) = some cr := by
    rw [hsplit, List.find?_append]
    have h1 : l1.find? (fun c => c.code == code) = none := by
      rw [List.find?_eq_none]
      intro c hc
      simpa using hl1 c hc
    rw [h1]
    simp [List.find?_cons, hcode]
  have hstatus : (cr.status ≠ CodeStatus.unused) = False := by simp [hunused]
  have hexp : (match cr.expiresAt with
      | some e => decide (e < now)
      | none => false) = false := by
    cases hce : cr.expiresAt with
    | none => rfl
    | some e => simpa using not_lt.mpr (hnotexp e hce)
  have husern : (s.users.any fun u => u.username == username) = false := by
    rw [List.any_eq_false]
    intro u hu
    simpa using huser u hu
  have hemn : (s.emails.any fun e =>
      e.address == (pe ++ "@" ++ firstDomain ds).toLower) = false := by
    rw [List.any_eq_false]
    intro e he
    simpa using hemail e he
  unfold activate
  rw [hfindc]
  simp only [hstatus, hexp, husern, hemn, if_false, Bool.false_eq_true,
    findOrCreateRole, assignRoleToUser]
  rw [hrolecase]
  have hl1m : l1.map (fun c =>
      if c.id = cr.id then
        (⟨c.id, c.code, .used, c.createdAt, c.expiresAt, some now,
          some nu⟩ : CodeRec)
      else c) = l1 := by
    conv_rhs => rw [← List.map_id l1]
    apply List.map_congr_left
    intro c hc
    simp [hid c (List.mem_append_left _ hc)]
  have hl2m : l2.map (fun c =>
      if c.id = cr.id then
        (⟨c.id, c.code, .used, c.createdAt, c.expiresAt, some now,
          some nu⟩ : CodeRec)
      else c) = l2 := by
    conv_rhs => rw [← List.map_id l2]
    apply List.map_congr_left
    intro c hc
    simp [hid c (List.mem_append_right _ hc)]
  have hmapeq : s.activationCodes.map (fun c =>
      if c.id = cr.id then
        (⟨c.id, c.code, .used, c.createdAt, c.expiresAt, some now,
          some nu⟩ : CodeRec)
      else c) = l1 ++
        (⟨cr.id, cr.code, .used, cr.createdAt, cr.expiresAt, some now,
          some nu⟩ : CodeRec) :: l2 := by
    rw [hsplit, List.map_append, List.map_cons, hl1m, hl2m]
    simp
  simp [hmapeq]

/-- C1: a valid activation request — code present with unused status and not
past its optional expiry, username free, computed address (local part `@`
first configured domain) free — creates the user, assigns the student role
(inserting the role row first when absent), creates the permanent email for
the new user, marks the code used with `usedAt`/`usedByUserId` set, touches
nothing else, and returns the new user's id/username and the new email's
id/address. -/
theorem claimC1_activate
    (hsplit : s.activationCodes = l1 ++ cr :: l2)
    (hcode : cr.code = code)
    (hl1 : ∀ c ∈ l1, c.code ≠ code)
    (hid : ∀ c ∈ l1 ++ l2, c.id ≠ cr.id)
    (hunused : cr.status = .unused)
    (hnotexp : ∀ e : Int, cr.expiresAt = some e → now ≤ e)
    (huser : ∀ u ∈ s.users, u.username ≠ username)
    (hemail : ∀ e ∈ s.emails, e.address ≠ (pe ++ "@" ++ firstDomain ds).toLower) :
    (activate s code username pw pe ds now nu nr ne).1 =
      .ok nu username ne (pe ++ "@" ++ firstDomain ds) ∧
    (activate s code username pw pe ds now nu nr ne).2.users =
      s.users ++ [⟨nu, username, pw, true⟩] ∧
    (activate s code username pw pe ds now nu nr ne).2.emails =
      s.emails ++
        [⟨ne, pe ++ "@" ++ firstDomain ds, nu, now, permanentExpiry, true⟩] ∧
    (activate s code username pw pe ds now nu nr ne).2.apiKeys = s.apiKeys ∧
    (∀ role : RoleRec,
      s.roles.find? (fun x => x.name == "student") = some role →
      (activate s code username pw pe ds now nu nr ne).2.roles = s.roles ∧
      (activate s code username pw pe ds now nu nr ne).2.userRoles =
        s.userRoles ++ [⟨nu, role.id⟩]) ∧
    (s.roles.find? (fun x => x.name == "student") = none →
      (activate s code username pw pe ds now nu nr ne).2.roles =
        s.roles ++ [⟨nr, "student"⟩] ∧
      (activate s code username pw pe ds now nu nr ne).2.userRoles =
        s.userRoles ++ [⟨nu, nr⟩]) ∧
    (activate s code username pw pe ds now nu nr ne).2.activationCodes =
      l1 ++ (⟨cr.id, cr.code, .used, cr.createdAt, cr.expiresAt, some now,
        some nu⟩ : CodeRec) :: l2 := by
  cases hr : s.roles.find? (fun x => x.name == "student") with
  | some role =>
    have h := activate_eq_of_role_some s code username pw pe ds now nu nr ne
      cr l1 l2 hsplit hcode hl1 hid hunused hnotexp huser hemail role hr
    refine ⟨by rw [h], by rw [h], by rw [h], by rw [h], ?_, ?_, by rw [h]⟩
    · intro role' hr'
      injection hr' with he
      subst he
      exact ⟨by rw [h], by rw [h]⟩
    · intro h0
      exact Option.noConfusion h0
  | none =>
    have h := activate_eq_of_role_none s code username pw pe ds now nu nr ne
      cr l1 l2 hsplit hcode hl1 hid hunused hnotexp huser hemail hr
    refine ⟨by rw [h], by rw [h], by rw [h], by rw [h], ?_, ?_, by rw [h]⟩
    · intro role' hr'
      exact Option.noConfusion hr'
    · intro _
      exact ⟨by rw [h], by rw [h]⟩

end ActivateSuccess

/-- C1 (witness): the theorem applied to a concrete valid request at time 3
against `expiredCodeState` (whose code expires only at time 5). -/
theorem claimC1_witness :
    (activate expiredCodeState "AAAA" "bob" "pw" "mail" none 3 100 101 102).1 =
      .ok 100 "bob" 102 ("mail" ++ "@" ++ firstDomain none) ∧
    (activate expiredCodeState "AAAA" "bob" "pw" "mail" none 3 100 101
        102).2.activationCodes =
      [⟨1, "AAAA", .used, 0, some 5, some 3, some 100⟩] := by
  have h := claimC1_activate expiredCodeState "AAAA" "bob" "pw" "mail" none 3
    100 101 102 ⟨1, "AAAA", .unused, 0, some 5, none, none⟩ [] []
    rfl rfl (by simp) (by simp) rfl
    (by intro e he; injection he with h1; omega)
    (by simp [expiredCodeState]) (by simp [expiredCodeState])
  exact ⟨h.1, by rw [h.2.2.2.2.2.2]; rfl⟩

/-! ## C4: promotion of an owned email to permanent -/

/-- C4: for an existing owned email (the authorized-student path of the
promotion handler): if the user already has a permanent email, or the target
is already permanent, or the target is already expired, the transaction
returns an error and changes no email; otherwise it returns success and
updates exactly the target email, setting `isPermanent := true` and
`expiresAt := permanentExpiry` and leaving its other fields, all other
emails, and all other tables unchanged. -/
theorem claimC4_promote (s : DbState) (uid emailId : Nat) (now : Int)
    (target : EmailRec) (l1 l2 : List EmailRec)
    (hsplit : s.emails = l1 ++ target :: l2)
    (htid : target.id = emailId) (htuid : target.userId = uid)
    (hid : ∀ e ∈ l1 ++ l2, e.id ≠ emailId) :
    (((∃ e ∈ s.emails, e.userId = uid ∧ e.isPermanent = true) ∨
        target.isPermanent = true ∨ target.expiresAt < now) →
      ((setPermanentEmail s uid emailId now).1 = .alreadyHasPermanent ∨
       (setPermanentEmail s uid emailId now).1 = .alreadyPermanent ∨
       (setPermanentEmail s uid emailId now).1 = .emailExpired) ∧
      (setPermanentEmail s uid emailId now).2 = s) ∧
    ((¬∃ e ∈ s.emails, e.userId = uid ∧ e.isPermanent = true) →
      target.isPermanent = false → now ≤ target.expiresAt →
      (setPermanentEmail s uid emailId now).1 =
        .ok emailId target.address target.createdAt permanentExpiry ∧
      (setPermanentEmail s uid emailId now).2.emails =
        l1 ++ (⟨target.id, target.address, target.userId, target.createdAt,
          permanentExpiry, true⟩ : EmailRec) :: l2 ∧
      (setPermanentEmail s uid emailId now).2.users = s.users ∧
      (setPermanentEmail s uid emailId now).2.roles = s.roles ∧
      (setPermanentEmail s uid emailId now).2.userRoles = s.userRoles ∧
      (setPermanentEmail s uid emailId now).2.activationCodes =
        s.activationCodes ∧
      (setPermanentEmail s uid emailId now).2.apiKeys = s.apiKeys) := by
  have hfind : s.emails.find? (fun e => e.id == emailId && e.userId == uid) =
      some target := by
    rw [hsplit, List.find?_append]
    have h1 : l1.find? (fun e => e.id == emailId && e.userId == uid) = none := by
      rw [List.find?_eq_none]
      intro e he
      simp [hid e (List.mem_append_left _ he)]
    rw [h1]
    simp [List.find?_cons, htid, htuid]
  constructor
  · intro herr
    by_cases hA : (s.emails.any fun e => e.userId == uid && e.isPermanent) = true
    · unfold setPermanentEmail
      rw [if_pos hA]
      exact ⟨Or.inl rfl, rfl⟩
    · have hA' : (s.emails.any fun e => e.userId == uid && e.isPermanent) =
          false := by
        simpa using hA
      have hnoex : ¬∃ e ∈ s.emails, e.userId = uid ∧ e.isPermanent = true := by
        rintro ⟨e, he, h1, h2⟩
        rw [List.any_eq_false] at hA'
        exact hA' e he (by simp [h1, h2])
      unfold setPermanentEmail
      rw [hA']
      simp only [Bool.false_eq_true, if_false, hfind]
      by_cases hB : target.isPermanent = true
      · rw [if_pos hB]
        exact ⟨Or.inr (Or.inl rfl), rfl⟩
      · rcases herr with hca | hcb | hcc
        · exact absurd hca hnoex
        · exact absurd hcb hB
        · rw [if_neg hB, if_pos hcc]
          exact ⟨Or.inr (Or.inr rfl), rfl⟩
  · intro hnA hB hC
    have hA' : (s.emails.any fun e => e.userId == uid && e.isPermanent) =
        false := by
      rw [List.any_eq_false]
      intro e he
      simp only [Bool.and_eq_true, beq_iff_eq]
      rintro ⟨h1, h2⟩
      exact hnA ⟨e, he, h1, h2⟩
    have hmapeq : s.emails.map (fun e =>
        if e.id = emailId then
          (⟨e.id, e.address, e.userId, e.createdAt, permanentExpiry,
            true⟩ : EmailRec)
        else e) = l1 ++
          (⟨target.id, target.address, target.userId, target.createdAt,
            permanentExpiry, true⟩ : EmailRec) :: l2 := by
      rw [hsplit, List.map_append, List.map_cons]
      have hl1m : l1.map (fun e =>
          if e.id = emailId then
            (⟨e.id, e.address, e.userId, e.createdAt, permanentExpiry,
              true⟩ : EmailRec)
          else e) = l1 := by
        conv_rhs => rw [← List.map_id l1]
        apply List.map_congr_left
        intro e he
        simp [hid e (List.mem_append_left _ he)]
      have hl2m : l2.map (fun e =>
          if e.id = emailId then
            (⟨e.id, e.address, e.userId, e.createdAt, permanentExpiry,
              true⟩ : EmailRec)
          else e) = l2 := by
        conv_rhs => rw [← List.map_id l2]
        apply List.map_congr_left
        intro e he
        simp [hid e (List.mem_append_right _ he)]
      rw [hl1m, hl2m]
      simp [htid]
    have hfull : setPermanentEmail s uid emailId now =
        (.ok emailId target.address target.createdAt permanentExpiry,
         { s with emails := l1 ++
            (⟨target.id, target.address, target.userId, target.createdAt,
              permanentExpiry, true⟩ : EmailRec) :: l2 }) := by
      unfold setPermanentEmail
      rw [hA']
      simp only [Bool.false_eq_true, if_false, hfind]
      rw [if_neg (by simp [hB]), if_neg (not_lt.mpr hC)]
      simp [hmapeq]
    rw [hfull]
    exact ⟨rfl, rfl, rfl, rfl, rfl, rfl, rfl⟩

/-- A concrete state: one user owning one non-permanent, unexpired email. -/
def wPromoteState : DbState :=
  ⟨[⟨1, "u", "p", true⟩], [⟨10, "x@moemail.app", 1, 0, 100, false⟩],
    [], [], [], []⟩

/-- C4 (witness): the theorem applied to the concrete owned email, promoted
at time 50 (before its expiry 100). -/
theorem claimC4_witness :
    (setPermanentEmail wPromoteState 1 10 50).1 =
      .ok 10 "x@moemail.app" 0 permanentExpiry ∧
    (setPermanentEmail wPromoteState 1 10 50).2.emails =
      [⟨10, "x@moemail.app", 1, 0, permanentExpiry, true⟩] := by
  have h := (claimC4_promote wPromoteState 1 10 50
    ⟨10, "x@moemail.app", 1, 0, 100, false⟩ [] [] rfl rfl rfl (by simp)).2
    (by rintro ⟨e, he, h1, h2⟩; simp [wPromoteState] at he; rw [he] at h2; simp at h2)
    rfl (by decide)
  exact ⟨h.1, by rw [h.2.1]; rfl⟩

/-! ## Frame lemmas: which tables each operation leaves unchanged -/

/-- The promotion transaction never touches the activation codes. -/
theorem setPermanentEmail_codes_eq (s : DbState) (uid eid : Nat) (now : Int) :
    (setPermanentEmail s uid eid now).2.activationCodes = s.activationCodes := by
  unfold setPermanentEmail
  split
  · rfl
  · split
    · rfl
    · split
      · rfl
      · split
        · rfl
        · rfl

/-- The promotion handler never touches the activation codes. -/
theorem promoteHandler_codes_eq (ctx : PromoteCtx) (s : DbState) (eid : Nat)
    (now : Int) :
    (promoteHandler ctx s eid now).2.activationCodes = s.activationCodes := by
  unfold promoteHandler
  rcases h : ctx.userId with _ | uid
  · rfl
  · rcases hsp : setPermanentEmail s uid eid now with ⟨r, s2⟩
    have hc := setPermanentEmail_codes_eq s uid eid now
    rw [hsp] at hc
    dsimp only
    split
    · rfl
    · split
      · rfl
      · split
        · rfl
        · split
          · rfl
          · rw [hsp]
            exact hc

/-- The admin add-email handler never touches the activation codes. -/
theorem adminAddEmail_codes_eq (s : DbState) (tid : Nat) (req : AddEmailReq)
    (ds : Option String) (rn : String) (now : Int) (ne : Nat) :
    (adminAddEmail s tid req ds rn now ne).2.activationCodes =
      s.activationCodes := by
  unfold adminAddEmail
  split
  · rfl
  · split
    · rfl
    · split
      · rfl
      · dsimp only
        split <;> rfl

/-- The admin update-email handler never touches the activation codes. -/
theorem adminUpdateEmail_codes_eq (s : DbState) (uid eid : Nat)
    (req : UpdateEmailReq) (ds : Option String) (now : Int) :
    (adminUpdateEmail s uid eid req ds now).2.activationCodes =
      s.activationCodes := by
  unfold adminUpdateEmail
  split
  · rfl
  · split
    · rfl
    · dsimp only
      split
      · rfl
      · split
        · rfl
        · rfl

/-- `findOrCreateRole` touches only the roles table. -/
theorem findOrCreateRole_codes_eq (s : DbState) (rn : String) (nrid : Nat) :
    (findOrCreateRole s rn nrid).2.activationCodes = s.activationCodes := by
  unfold findOrCreateRole
  split <;> rfl

/-! ## Per-operation preservation of used codes (for C5 and C6) -/

/-- Two code rows of a table with distinct primary keys are equal when their
ids are. -/
theorem code_eq_of_id_eq (cs : List CodeRec)
    (hnodup : (cs.map (fun c => c.id)).Nodup) (c d : CodeRec)
    (hc : c ∈ cs) (hd : d ∈ cs) (h : c.id = d.id) : c = d :=
  List.inj_on_of_nodup_map hnodup hc hd h

/-- A row whose id differs from the update key survives a keyed map
unchanged. -/
theorem mem_map_update_codes (cs : List CodeRec) (c : CodeRec) (hc : c ∈ cs)
    (tid : Nat) (hne : c.id ≠ tid) (g : CodeRec → CodeRec) :
    c ∈ cs.map (fun x => if x.id == tid then g x else x) := by
  have h := List.mem_map_of_mem (fun x => if x.id == tid then g x else x) hc
  simpa [hne] using h

/-- Activation redemption leaves every non-`unused` code row unchanged in
the table (it only writes the `unused` code it matched). -/
theorem activate_preserves_nonunused (s : DbState)
    (code username pw pe : String) (ds : Option String) (now : Int)
    (nu nr ne : Nat) (hnodup : codeIdsNodup s) :
    ∀ c ∈ s.activationCodes, c.status ≠ .unused →
      c ∈ (activate s code username pw pe ds now nu nr ne).2.activationCodes := by
  intro c hc hcst
  unfold activate
  cases hf : s.activationCodes.find? (fun x => x.code == code) with
  | none => exact hc
  | some cr =>
    dsimp only
    have hcrmem : cr ∈ s.activationCodes := List.mem_of_find?_eq_some hf
    by_cases h1 : cr.status ≠ CodeStatus.unused
    · rw [if_pos h1]
      exact hc
    · have hcrst : cr.status = .unused := not_not.mp h1
      have hidne : c.id ≠ cr.id := by
        intro he
        exact hcst (by
          rw [code_eq_of_id_eq s.activationCodes hnodup c cr hc hcrmem he]
          exact hcrst)
      rw [if_neg h1]
      by_cases h2 : (match cr.expiresAt with
          | some e => decide (e < now)
          | none => false) = true
      · rw [if_pos h2]
        exact mem_map_update_codes _ c hc cr.id hidne _
      · rw [if_neg h2]
        by_cases h3 : (s.users.any fun u => u.username == username) = true
        · rw [if_pos h3]
          exact hc
        · rw [if_neg h3]
          by_cases h4 : (s.emails.any fun e =>
              e.address == (pe ++ "@" ++ firstDomain ds).toLower) = true
          · rw [if_pos h4]
            exact hc
          · rw [if_neg h4]
            rcases hr : findOrCreateRole
              { s with users := s.users ++ [⟨nu, username, pw, true⟩] }
              "student" nr with ⟨rid, s2⟩
            have hs2 : s2.activationCodes = s.activationCodes := by
              have hfr := findOrCreateRole_codes_eq
                { s with users := s.users ++ [⟨nu, username, pw, true⟩] }
                "student" nr
              rw [hr] at hfr
              simpa using hfr
            dsimp only [assignRoleToUser]
            rw [hs2]
            exact mem_map_update_codes _ c hc cr.id hidne _

/-- The admin status update: a `used` row keeps its id, code and user
reference, and its status can only stay `used` or become `disabled`. -/
theorem updateCodeStatus_used_spec (s : DbState) (codeId : Nat)
    (st : CodeStatus) (now : Int) (hnodup : codeIdsNodup s) :
    ∀ c ∈ s.activationCodes, c.status = .used →
      ∃ c' ∈ (updateCodeStatus s codeId st now).2.activationCodes,
        c'.id = c.id ∧ c'.code = c.code ∧ c'.usedByUserId = c.usedByUserId ∧
        (c'.status = .used ∨ c'.status = .disabled) := by
  intro c hc hcst
  unfold updateCodeStatus
  cases hf : s.activationCodes.find? (fun x => x.id == codeId) with
  | none => exact ⟨c, hc, rfl, rfl, rfl, Or.inl hcst⟩
  | some ex =>
    dsimp only
    have hexmem : ex ∈ s.activationCodes := List.mem_of_find?_eq_some hf
    have hexid : ex.id = codeId := by simpa using List.find?_some hf
    by_cases h1 : (ex.status == CodeStatus.used && st != CodeStatus.disabled) = true
    · rw [if_pos h1]
      exact ⟨c, hc, rfl, rfl, rfl, Or.inl hcst⟩
    · rw [if_neg h1]
      by_cases h2 : (st == CodeStatus.used && ex.usedByUserId == none) = true
      · rw [if_pos h2]
        exact ⟨c, hc, rfl, rfl, rfl, Or.inl hcst⟩
      · rw [if_neg h2]
        by_cases hcid : c.id = codeId
        · have hceq : c = ex :=
            code_eq_of_id_eq s.activationCodes hnodup c ex hc hexmem
              (hcid.trans hexid.symm)
          have hstdis : st = .disabled := by
            rw [← hceq] at h1
            simp only [hcst, beq_self_eq_true, Bool.true_and] at h1
            simpa using h1
          refine ⟨_, List.mem_map_of_mem _ hc, ?_, ?_, ?_, ?_⟩
          · simp [hcid]
          · simp [hcid]
          · simp [hcid]
          · right
            simp [hcid, hstdis]
        · refine ⟨c, ?_, rfl, rfl, rfl, Or.inl hcst⟩
          exact mem_map_update_codes _ c hc codeId hcid _

/-- The admin delete: a `used` row survives any code deletion unchanged. -/
theorem deleteCode_used_mem (s : DbState) (codeId : Nat)
    (hnodup : codeIdsNodup s) :
    ∀ c ∈ s.activationCodes, c.status = .used →
      c ∈ (deleteCode s codeId).2.activationCodes := by
  intro c hc hcst
  unfold deleteCode
  cases hf : s.activationCodes.find? (fun x => x.id == codeId) with
  | none => exact hc
  | some ex =>
    dsimp only
    have hexmem : ex ∈ s.activationCodes := List.mem_of_find?_eq_some hf
    have hexid : ex.id = codeId := by simpa using List.find?_some hf
    by_cases h1 : (ex.status == CodeStatus.used) = true
    · rw [if_pos h1]
      exact hc
    · rw [if_neg h1]
      have hcid : c.id ≠ codeId := by
        intro he
        have hceq : c = ex :=
          code_eq_of_id_eq s.activationCodes hnodup c ex hc hexmem
            (he.trans hexid.symm)
        apply h1
        rw [← hceq, hcst]
        rfl
      exact List.mem_filter_of_mem hc (by simpa using hcid)

/-- Batch generation only appends rows. -/
theorem generateCodesPost_mem (s : DbState) (count : Nat) (ed : Option Nat)
    (r : Nat → Fin 36) (now : Int) (idBase : Nat) :
    ∀ c ∈ s.activationCodes,
      c ∈ (generateCodesPost s count ed r now idBase).2.activationCodes := by
  intro c hc
  unfold generateCodesPost
  cases generateCodes r count with
  | none => exact hc
  | some cs => exact List.mem_append_left _ hc

/-- User deletion: every code row survives with its status; only rows bound
to the deleted user lose their user reference. -/
theorem deleteUser_codes_spec (perm thr : Bool) (s : DbState) (tid : Nat) :
    ∀ c ∈ s.activationCodes,
      ∃ c' ∈ (deleteUser perm thr s tid).2.activationCodes,
        c'.id = c.id ∧ c'.code = c.code ∧ c'.status = c.status ∧
        (c'.usedByUserId = c.usedByUserId ∨
          (c'.usedByUserId = none ∧ c.usedByUserId = some tid)) := by
  intro c hc
  unfold deleteUser
  by_cases hp : (!perm) = true
  · rw [if_pos hp]
    exact ⟨c, hc, rfl, rfl, rfl, Or.inl rfl⟩
  · rw [if_neg hp]
    cases hf : s.users.find? (fun u => u.id == tid) with
    | none => exact ⟨c, hc, rfl, rfl, rfl, Or.inl rfl⟩
    | some u =>
      dsimp only
      by_cases he : ((userRoleNames s tid).any fun n => n == "emperor") = true
      · rw [if_pos he]
        exact ⟨c, hc, rfl, rfl, rfl, Or.inl rfl⟩
      · rw [if_neg he]
        by_cases ht : thr = true
        · rw [if_pos ht]
          exact ⟨c, hc, rfl, rfl, rfl, Or.inl rfl⟩
        · rw [if_neg ht]
          dsimp only
          by_cases hu : (c.usedByUserId == some tid) = true
          · refine ⟨_, List.mem_map_of_mem _ hc, ?_, ?_, ?_, ?_⟩
            · simp [hu]
            · simp [hu]
            · simp [hu]
            · right
              refine ⟨by simp [hu], by simpa using hu⟩
          · refine ⟨_, List.mem_map_of_mem _ hc, ?_, ?_, ?_, ?_⟩ <;> simp [hu]

/-! ## C5: transitions of used activation codes -/

/-- A state holding one redeemed (`used`) code bound to user 7. -/
def wUsedCodeState : DbState :=
  ⟨[], [], [], [], [⟨1, "C", .used, 0, none, some 0, some 7⟩], []⟩

/-- After the admin disables the used code. -/
def wC5s1 : DbState := (updateCodeStatus wUsedCodeState 1 .disabled 0).2

/-- After the admin then sets the disabled code back to `unused`. -/
def wC5s2 : DbState := (updateCodeStatus wC5s1 1 .unused 0).2

/-- After the admin instead deletes the disabled code. -/
def wC5s3 : DbState := (deleteCode wC5s1 1).2

/-- C5 (counterexample): over a two-step admin sequence the used code first
becomes `disabled` and then `unused` (and, alternatively, is deleted) —
the claimed "never later unused, never deleted" fails because the guard only
inspects the current status. -/
theorem claimC5_counterexample :
    SysTrace wUsedCodeState wC5s2 ∧
    wUsedCodeState.activationCodes = [⟨1, "C", .used, 0, none, some 0, some 7⟩] ∧
    wC5s2.activationCodes = [⟨1, "C", .unused, 0, none, some 0, some 7⟩] ∧
    SysTrace wUsedCodeState wC5s3 ∧
    wC5s3.activationCodes = [] := by
  refine ⟨?_, by decide, by decide, ?_, by decide⟩
  · exact Relation.ReflTransGen.tail
      (Relation.ReflTransGen.single
        (SysStep.ofND _ _ (SysStepND.codeStatus wUsedCodeState 1 .disabled 0)))
      (SysStep.ofND _ _ (SysStepND.codeStatus wC5s1 1 .unused 0))
  · exact Relation.ReflTransGen.tail
      (Relation.ReflTransGen.single
        (SysStep.ofND _ _ (SysStepND.codeStatus wUsedCodeState 1 .disabled 0)))
      (SysStep.ofND _ _ (SysStepND.codeDelete wC5s1 1))

/-- C5 (amended): in a single step of any modelled operation, a code whose
status is `used` survives (it is never deleted in that step) with its id and
code string, and its status either stays `used` or becomes `disabled`; the
multi-step version fails because a `disabled` code may be set to any status
or deleted. -/
theorem claimC5_amended (s s' : DbState) (hstep : SysStep s s')
    (hnodup : codeIdsNodup s) :
    ∀ c ∈ s.activationCodes, c.status = .used →
      ∃ c' ∈ s'.activationCodes, c'.id = c.id ∧ c'.code = c.code ∧
        (c'.status = .used ∨ c'.status = .disabled) := by
  intro c hc hst
  cases hstep with
  | ofND _ _ hnd =>
    cases hnd with
    | activate s code u pw pe ds now nu nr ne =>
      refine ⟨c, ?_, rfl, rfl, Or.inl hst⟩
      exact activate_preserves_nonunused s code u pw pe ds now nu nr ne
        hnodup c hc (by simp [hst])
    | promote ctx s eid now =>
      rw [promoteHandler_codes_eq]
      exact ⟨c, hc, rfl, rfl, Or.inl hst⟩
    | adminAdd s tid req ds rn now ne =>
      rw [adminAddEmail_codes_eq]
      exact ⟨c, hc, rfl, rfl, Or.inl hst⟩
    | adminUpdate s uid eid req ds now =>
      rw [adminUpdateEmail_codes_eq]
      exact ⟨c, hc, rfl, rfl, Or.inl hst⟩
    | codeStatus s cid st now =>
      obtain ⟨c', hm, h1, h2, _, h4⟩ :=
        updateCodeStatus_used_spec s cid st now hnodup c hc hst
      exact ⟨c', hm, h1, h2, h4⟩
    | codeDelete s cid =>
      exact ⟨c, deleteCode_used_mem s cid hnodup c hc hst, rfl, rfl,
        Or.inl hst⟩
    | codeGenerate s count ed r now idBase =>
      exact ⟨c, generateCodesPost_mem s count ed r now idBase c hc, rfl, rfl,
        Or.inl hst⟩
  | userDelete perm thr s tid =>
    obtain ⟨c', hm, h1, h2, h3, _⟩ := deleteUser_codes_spec perm thr s tid c hc
    exact ⟨c', hm, h1, h2, Or.inl (by rw [h3, hst])⟩

/-- C5 (witness): the amended theorem applied to the concrete disable step
of the used code. -/
theorem claimC5_witness :
    ∃ c' ∈ wC5s1.activationCodes, c'.id = 1 ∧ c'.code = "C" ∧
      (c'.status = .used ∨ c'.status = .disabled) :=
  claimC5_amended wUsedCodeState wC5s1
    (SysStep.ofND _ _ (SysStepND.codeStatus wUsedCodeState 1 .disabled 0))
    (by unfold codeIdsNodup; decide) ⟨1, "C", .used, 0, none, some 0, some 7⟩
    (by decide) rfl

/-! ## C6: immutability of a redeemed code's user reference -/

/-- After the admin deletes the redeeming user. -/
def wC6s1 : DbState := (deleteUser true false wStudentState 7).2

/-- C6 (counterexample): deleting the redeeming user (an operation of the
system, per the schema's `ON DELETE SET NULL`) clears the redeemed code's
`usedByUserId`, so the reference is not immutable. -/
theorem claimC6_counterexample :
    SysTrace wStudentState wC6s1 ∧
    wStudentState.activationCodes =
      [⟨1, "C", .used, 0, none, some 0, some 7⟩] ∧
    wC6s1.activationCodes = [⟨1, "C", .used, 0, none, some 0, none⟩] := by
  refine ⟨?_, by decide, by decide⟩
  exact Relation.ReflTransGen.single (SysStep.userDelete true false wStudentState 7)

/-- C6 (amended): every modelled operation except admin user deletion
preserves a used code's `usedByUserId`; a successful admin deletion of the
referenced user is the one exception, and it sets the reference to null. -/
theorem claimC6_amended :
    (∀ s s', SysStepND s s' → codeIdsNodup s →
      ∀ c ∈ s.activationCodes, c.status = .used →
        ∃ c' ∈ s'.activationCodes, c'.id = c.id ∧
          c'.usedByUserId = c.usedByUserId) ∧
    (∀ (perm thr : Bool) (s : DbState) (tid : Nat) (c : CodeRec),
      c ∈ s.activationCodes → c.usedByUserId = some tid →
      ∀ a b d e, (deleteUser perm thr s tid).1 = .ok a b d e →
        ∃ c' ∈ (deleteUser perm thr s tid).2.activationCodes,
          c'.id = c.id ∧ c'.usedByUserId = none) := by
  constructor
  · intro s s' hnd hnodup c hc hst
    cases hnd with
    | activate s code u pw pe ds now nu nr ne =>
      refine ⟨c, ?_, rfl, rfl⟩
      exact activate_preserves_nonunused s code u pw pe ds now nu nr ne
        hnodup c hc (by simp [hst])
    | promote ctx s eid now =>
      rw [promoteHandler_codes_eq]
      exact ⟨c, hc, rfl, rfl⟩
    | adminAdd s tid req ds rn now ne =>
      rw [adminAddEmail_codes_eq]
      exact ⟨c, hc, rfl, rfl⟩
    | adminUpdate s uid eid req ds now =>
      rw [adminUpdateEmail_codes_eq]
      exact ⟨c, hc, rfl, rfl⟩
    | codeStatus s cid st now =>
      obtain ⟨c', hm, h1, _, h3, _⟩ :=
        updateCodeStatus_used_spec s cid st now hnodup c hc hst
      exact ⟨c', hm, h1, h3⟩
    | codeDelete s cid =>
      exact ⟨c, deleteCode_used_mem s cid hnodup c hc hst, rfl, rfl⟩
    | codeGenerate s count ed r now idBase =>
      exact ⟨c, generateCodesPost_mem s count ed r now idBase c hc, rfl, rfl⟩
  · intro perm thr s tid c hc hu a b d e hok
    unfold deleteUser at hok ⊢
    by_cases hp : (!perm) = true
    · rw [if_pos hp] at hok
      simp at hok
    · rw [if_neg hp] at hok ⊢
      cases hf : s.users.find? (fun u => u.id == tid) with
      | none =>
        rw [hf] at hok
        simp at hok
      | some u =>
        rw [hf] at hok
        dsimp only at hok ⊢
        by_cases he : ((userRoleNames s tid).any fun n => n == "emperor") = true
        · rw [if_pos he] at hok
          simp at hok
        · rw [if_neg he] at hok ⊢
          by_cases ht : thr = true
          · rw [if_pos ht] at hok
            simp at hok
          · rw [if_neg ht]
            dsimp only
            refine ⟨_, List.mem_map_of_mem _ hc, ?_, ?_⟩
            · simp [hu]
            · simp [hu]

/-- C6 (witness): both amended clauses at concrete inputs — the disable step
keeps the reference, deleting user 7 clears it. -/
theorem claimC6_witness :
    (∃ c' ∈ wC5s1.activationCodes, c'.id = 1 ∧ c'.usedByUserId = some 7) ∧
    (∃ c' ∈ (deleteUser true false wStudentState 7).2.activationCodes,
      c'.id = 1 ∧ c'.usedByUserId = none) :=
  ⟨claimC6_amended.1 wUsedCodeState wC5s1
      (SysStepND.codeStatus wUsedCodeState 1 .disabled 0)
      (by unfold codeIdsNodup; decide)
      ⟨1, "C", .used, 0, none, some 0, some 7⟩ (by decide) rfl,
   claimC6_amended.2 true false wStudentState 7
      ⟨1, "C", .used, 0, none, some 0, some 7⟩ (by decide) rfl 0 0 1 1
      (by decide)⟩

/-! ## C3: the permanent-email invariant -/

/-- Distinct primary keys on an email list. -/
def emailNodup (l : List EmailRec) : Prop := (l.map (fun e => e.id)).Nodup

/-- At most one permanent email per user on an email list. -/
def emailAMO (l : List EmailRec) : Prop :=
  ∀ uid, l.countP (fun e => e.userId == uid && e.isPermanent) ≤ 1

/-- With distinct ids, at most one row carries a given id. -/
theorem countP_id_le_one (l : List EmailRec) (h : emailNodup l) (i : Nat) :
    l.countP (fun e => e.id == i) ≤ 1 := by
  induction l with
  | nil => simp
  | cons e l ih =>
    rw [List.countP_cons]
    unfold emailNodup at h
    rw [List.map_cons, List.nodup_cons] at h
    by_cases hei : (e.id == i) = true
    · have heid : e.id = i := by simpa using hei
      have hzero : l.countP (fun x => x.id == i) = 0 := by
        rw [List.countP_eq_zero]
        intro x hx
        simp only [beq_iff_eq]
        intro hxi
        apply h.1
        have hm : x.id ∈ List.map (fun e => e.id) l :=
          List.mem_map_of_mem (fun e => e.id) hx
        rwa [hxi, ← heid] at hm
      simp [hei, hzero]
    · simp only [hei, if_false, Bool.false_eq_true, Nat.add_zero]
      exact ih h.2

/-- Appending a row with a fresh id keeps ids distinct. -/
theorem emailNodup_append (l : List EmailRec) (x : EmailRec)
    (hnd : emailNodup l) (hfresh : ∀ e ∈ l, e.id ≠ x.id) :
    emailNodup (l ++ [x]) := by
  unfold emailNodup at hnd ⊢
  rw [List.map_append]
  simp only [List.map_cons, List.map_nil]
  rw [List.nodup_append]
  refine ⟨hnd, List.nodup_singleton _, ?_⟩
  intro i hi
  simp only [List.mem_singleton]
  obtain ⟨e, he, rfl⟩ := List.mem_map.mp hi
  exact hfresh e he

/-- A keyed map that preserves ids keeps them distinct. -/
theorem emailNodup_map (l : List EmailRec) (f : EmailRec → EmailRec)
    (hf : ∀ e, (f e).id = e.id) (hnd : emailNodup l) :
    emailNodup (l.map f) := by
  unfold emailNodup at hnd ⊢
  rw [List.map_map]
  have : ((fun e => e.id) ∘ f) = fun e : EmailRec => e.id := by
    funext e
    exact hf e
  rw [this]
  exact hnd

/-- Appending a row preserves the at-most-one-permanent invariant when a
permanent newcomer's owner has no permanent email yet. -/
theorem emailAMO_append (l : List EmailRec) (x : EmailRec) (hamo : emailAMO l)
    (hperm : x.isPermanent = true →
      l.countP (fun e => e.userId == x.userId && e.isPermanent) = 0) :
    emailAMO (l ++ [x]) := by
  intro uid
  rw [List.countP_append]
  by_cases hx : (x.userId == uid && x.isPermanent) = true
  · have hx2 := hx
    simp only [Bool.and_eq_true, beq_iff_eq] at hx2
    obtain ⟨hux, hxp⟩ := hx2
    have h0 := hperm hxp
    rw [hux] at h0
    simp [List.countP_cons, hx, h0]
  · have h1 := hamo uid
    simp only [List.countP_cons, List.countP_nil, hx, if_false,
      Bool.false_eq_true, Nat.add_zero, Nat.zero_add]
    omega

/-- A keyed map that never makes a non-permanent row permanent preserves the
invariant. -/
theorem emailAMO_map_le (l : List EmailRec) (f : EmailRec → EmailRec)
    (hf_uid : ∀ e, (f e).userId = e.userId)
    (hle : ∀ e ∈ l, (f e).isPermanent = true → e.isPermanent = true)
    (hamo : emailAMO l) : emailAMO (l.map f) := by
  intro uid
  rw [List.countP_map]
  refine le_trans (List.countP_mono_left ?_) (hamo uid)
  intro e he hp
  simp only [Function.comp_apply, Bool.and_eq_true, beq_iff_eq] at hp ⊢
  exact ⟨(hf_uid e ▸ hp.1 : e.userId = uid), hle e he hp.2⟩

/-- A keyed map that promotes only the row with key `eid`, owned by a user
with no permanent email, preserves the invariant. -/
theorem emailAMO_map_promote (l : List EmailRec) (eid uid : Nat)
    (f : EmailRec → EmailRec)
    (hf_uid : ∀ e, (f e).userId = e.userId)
    (hout : ∀ e ∈ l, e.id ≠ eid → f e = e)
    (hin_uid : ∀ e ∈ l, e.id = eid → e.userId = uid)
    (hnone : l.countP (fun e => e.userId == uid && e.isPermanent) = 0)
    (hnd : emailNodup l) (hamo : emailAMO l) : emailAMO (l.map f) := by
  intro uid2
  rw [List.countP_map]
  by_cases hu : uid2 = uid
  · subst hu
    refine le_trans (List.countP_mono_left ?_) (countP_id_le_one l hnd eid)
    intro e he hp
    simp only [Function.comp_apply] at hp
    simp only [beq_iff_eq]
    by_contra hne
    rw [hout e he hne] at hp
    rw [List.countP_eq_zero] at hnone
    exact hnone e he hp
  · refine le_trans (List.countP_mono_left ?_) (hamo uid2)
    intro e he hp
    simp only [Function.comp_apply] at hp
    by_cases hne : e.id = eid
    · exfalso
      have huid := hin_uid e he hne
      simp only [Bool.and_eq_true, beq_iff_eq] at hp
      rw [hf_uid e, huid] at hp
      exact hu hp.1.symm
    · rw [hout e he hne] at hp
      exact hp

theorem findOrCreateRole_emails_eq (s : DbState) (rn : String) (nrid : Nat) :
    (findOrCreateRole s rn nrid).2.emails = s.emails := by
  unfold findOrCreateRole
  split <;> rfl

theorem activate_emails_shape (s : DbState) (code username pw pe : String)
    (ds : Option String) (now : Int) (nu nr ne : Nat) :
    (activate s code username pw pe ds now nu nr ne).2.emails = s.emails ∨
    (activate s code username pw pe ds now nu nr ne).2.emails =
      s.emails ++
        [⟨ne, pe ++ "@" ++ firstDomain ds, nu, now, permanentExpiry, true⟩] := by
  unfold activate
  cases hf : s.activationCodes.find? (fun x => x.code == code) with
  | none => exact Or.inl rfl
  | some cr =>
    dsimp only
    by_cases h1 : cr.status ≠ CodeStatus.unused
    · rw [if_pos h1]
      exact Or.inl rfl
    · rw [if_neg h1]
      by_cases h2 : (match cr.expiresAt with
          | some e => decide (e < now)
          | none => false) = true
      · rw [if_pos h2]
        exact Or.inl rfl
      · rw [if_neg h2]
        by_cases h3 : (s.users.any fun u => u.username == username) = true
        · rw [if_pos h3]
          exact Or.inl rfl
        · rw [if_neg h3]
          by_cases h4 : (s.emails.any fun e =>
              e.address == (pe ++ "@" ++ firstDomain ds).toLower) = true
          · rw [if_pos h4]
            exact Or.inl rfl
          · rw [if_neg h4]
            rcases hr : findOrCreateRole
              { s with users := s.users ++ [⟨nu, username, pw, true⟩] }
              "student" nr with ⟨rid, s2⟩
            have hs2 : s2.emails = s.emails := by
              have hfr := findOrCreateRole_emails_eq
                { s with users := s.users ++ [⟨nu, username, pw, true⟩] }
                "student" nr
              rw [hr] at hfr
              simpa using hfr
            right
            dsimp only [assignRoleToUser]
            rw [hs2]

theorem setPermanentEmail_shape (s : DbState) (uid eid : Nat) (now : Int) :
    (setPermanentEmail s uid eid now).2 = s ∨
    ((s.emails.any fun e => e.userId == uid && e.isPermanent) = false ∧
      (∃ t, s.emails.find? (fun e => e.id == eid && e.userId == uid) = some t) ∧
      (setPermanentEmail s uid eid now).2.emails =
        s.emails.map (fun e => if e.id == eid then
          { e with isPermanent := true, expiresAt := permanentExpiry }
        else e)) := by
  unfold setPermanentEmail
  by_cases hA : (s.emails.any fun e => e.userId == uid && e.isPermanent) = true
  · rw [if_pos hA]
    exact Or.inl rfl
  · rw [if_neg hA]
    cases hfind : s.emails.find? (fun e => e.id == eid && e.userId == uid) with
    | none => exact Or.inl rfl
    | some t =>
      dsimp only
      by_cases hB : t.isPermanent = true
      · rw [if_pos hB]
        exact Or.inl rfl
      · rw [if_neg hB]
        by_cases hC : t.expiresAt < now
        · rw [if_pos hC]
          exact Or.inl rfl
        · rw [if_neg hC]
          exact Or.inr ⟨by simpa using hA, ⟨t, rfl⟩, rfl⟩

theorem adminAddEmail_shape (s : DbState) (tid : Nat) (req : AddEmailReq)
    (ds : Option String) (rn : String) (now : Int) (ne : Nat) :
    (adminAddEmail s tid req ds rn now ne).2 = s ∨
    ∃ addr : String,
      (adminAddEmail s tid req ds rn now ne).2.emails = s.emails ++
        [⟨ne, addr, tid, now,
          (if req.isPermanent then permanentExpiry
           else now + (req.expiryHours : Int) * 3600000), req.isPermanent⟩] ∧
      (req.isPermanent = true →
        (s.emails.any fun e => e.userId == tid && e.isPermanent) = false) := by
  unfold adminAddEmail
  cases hf : s.users.find? (fun u => u.id == tid) with
  | none => exact Or.inl rfl
  | some u =>
    dsimp only
    by_cases h1 : (!u.enabled) = true
    · rw [if_pos h1]
      exact Or.inl rfl
    · rw [if_neg h1]
      by_cases h2 : (req.isPermanent &&
          s.emails.any fun e => e.userId == tid && e.isPermanent) = true
      · rw [if_pos h2]
        exact Or.inl rfl
      · rw [if_neg h2]
        have hperm : req.isPermanent = true →
            (s.emails.any fun e => e.userId == tid && e.isPermanent) = false := by
          intro hp
          rw [hp] at h2
          simpa using h2
        split
        · exact Or.inl rfl
        · rename_i emailAddress heq
          exact Or.inr ⟨emailAddress.toLower, rfl, hperm⟩

theorem adminUpdateEmail_shape (s : DbState) (uid eid : Nat)
    (req : UpdateEmailReq) (ds : Option String) (now : Int) :
    (adminUpdateEmail s uid eid req ds now).2 = s ∨
    ∃ t, s.emails.find? (fun e => e.id == eid && e.userId == uid) = some t ∧
      ∃ (exp : Option Int) (addrOpt : Option String),
      (adminUpdateEmail s uid eid req ds now).2.emails =
        s.emails.map (fun e => if e.id == eid then
          { e with isPermanent := req.isPermanent.getD e.isPermanent,
                   expiresAt := exp.getD e.expiresAt,
                   address := addrOpt.getD e.address }
        else e) ∧
      (req.isPermanent = some true → t.isPermanent = false →
        (s.emails.find? (fun o => o.userId == uid && o.isPermanent) = none ∨
         ∃ ex, s.emails.find? (fun o => o.userId == uid && o.isPermanent) =
            some ex ∧ ex.id = eid)) := by
  unfold adminUpdateEmail
  cases hfind : s.emails.find? (fun e => e.id == eid && e.userId == uid) with
  | none => exact Or.inl rfl
  | some t =>
    dsimp only
    by_cases h1 : (!((s.users.find? (fun u => u.id == uid)).any
        fun u => u.enabled)) = true
    · rw [if_pos h1]
      exact Or.inl rfl
    · rw [if_neg h1]
      by_cases hconf : (match req.isPermanent with
        | some b =>
          if b && !t.isPermanent then
            match s.emails.find? (fun o => o.userId == uid && o.isPermanent) with
            | some existing => existing.id != eid
            | none => false
          else false
        | none => false) = true
      · rw [if_pos hconf]
        exact Or.inl rfl
      · rw [if_neg hconf]
        by_cases haddr : (match req.customAddress.map (fun a =>
            (a ++ "@" ++ firstDomain ds).toLower) with
          | some addr =>
            match s.emails.find? (fun e2 => e2.address == addr) with
            | some existing => existing.id != eid
            | none => false
          | none => false) = true
        · rw [if_pos haddr]
          exact Or.inl rfl
        · rw [if_neg haddr]
          refine Or.inr ⟨t, rfl, _, _, rfl, ?_⟩
          intro hp hB
          rw [hp] at hconf
          simp only [hB] at hconf
          cases hfp : s.emails.find? (fun o => o.userId == uid && o.isPermanent) with
          | none => exact Or.inl rfl
          | some ex =>
            rw [hfp] at hconf
            simp only [Bool.not_false, Bool.and_true, if_true] at hconf
            right
            exact ⟨ex, rfl, by simpa using hconf⟩

/-- Sentinel property of an email list: permanent rows carry the sentinel
expiry. -/
def listSentinel (l : List EmailRec) : Prop :=
  ∀ e ∈ l, e.isPermanent = true → e.expiresAt = permanentExpiry

/-- Appending a sentinel-respecting row preserves the sentinel property. -/
theorem listSentinel_append (l : List EmailRec) (x : EmailRec)
    (hs : listSentinel l)
    (hx : x.isPermanent = true → x.expiresAt = permanentExpiry) :
    listSentinel (l ++ [x]) := by
  intro e he hp
  rcases List.mem_append.mp he with h | h
  · exact hs e h hp
  · simp only [List.mem_singleton] at h
    subst h
    exact hx hp

/-- The promotion map preserves the sentinel property. -/
theorem listSentinel_promote (l : List EmailRec) (eid : Nat)
    (hs : listSentinel l) :
    listSentinel (l.map (fun e => if e.id == eid then
      { e with isPermanent := true, expiresAt := permanentExpiry } else e)) := by
  intro e2 he2 hp
  obtain ⟨e, he, rfl⟩ := List.mem_map.mp he2
  by_cases h : (e.id == eid) = true
  · simp [h]
  · simp only [h, Bool.false_eq_true, if_false] at hp ⊢
    exact hs e he hp

/-- Two email rows of a table with distinct primary keys are equal when
their ids are. -/
theorem email_eq_of_id_eq (l : List EmailRec) (hnd : emailNodup l)
    (a b : EmailRec) (ha : a ∈ l) (hb : b ∈ l) (h : a.id = b.id) : a = b := by
  unfold emailNodup at hnd
  exact List.inj_on_of_nodup_map hnd ha hb h

/-- Activation preserves the email-table invariant (given fresh ids). -/
theorem inv_activate (s : DbState) (code username pw pe : String)
    (ds : Option String) (now : Int) (nu nr ne : Nat)
    (hinv : emailNodup s.emails ∧ emailAMO s.emails)
    (hfU : freshUserId s nu) (hfE : freshEmailId s ne) :
    emailNodup (activate s code username pw pe ds now nu nr ne).2.emails ∧
    emailAMO (activate s code username pw pe ds now nu nr ne).2.emails := by
  rcases activate_emails_shape s code username pw pe ds now nu nr ne with h | h
  · rw [h]
    exact hinv
  · rw [h]
    constructor
    · exact emailNodup_append _ _ hinv.1 (fun e he => hfE e he)
    · apply emailAMO_append _ _ hinv.2
      intro _
      rw [List.countP_eq_zero]
      intro e he
      simp only [Bool.and_eq_true, beq_iff_eq]
      rintro ⟨h1, _⟩
      exact hfU.2 e he h1

/-- Promotion preserves the email-table invariant. -/
theorem inv_promote (s : DbState) (uid eid : Nat) (now : Int)
    (hinv : emailNodup s.emails ∧ emailAMO s.emails) :
    emailNodup (setPermanentEmail s uid eid now).2.emails ∧
    emailAMO (setPermanentEmail s uid eid now).2.emails := by
  rcases setPermanentEmail_shape s uid eid now with h | ⟨hany, ⟨t, hfind⟩, hmap⟩
  · rw [h]
    exact hinv
  · rw [hmap]
    have htmem : t ∈ s.emails := List.mem_of_find?_eq_some hfind
    have htprop := List.find?_some hfind
    simp only [Bool.and_eq_true, beq_iff_eq] at htprop
    constructor
    · apply emailNodup_map _ _ _ hinv.1
      intro e
      by_cases h : (e.id == eid) = true <;> simp [h]
    · apply emailAMO_map_promote s.emails eid uid _ ?_ ?_ ?_ ?_ hinv.1 hinv.2
      · intro e
        by_cases h : (e.id == eid) = true <;> simp [h]
      · intro e he hne
        simp [hne]
      · intro e he heid
        have he2 : e = t :=
          email_eq_of_id_eq s.emails hinv.1 e t he htmem
            (heid.trans htprop.1.symm)
        rw [he2]
        exact htprop.2
      · rw [List.countP_eq_zero]
        intro e he
        rw [List.any_eq_false] at hany
        exact hany e he

/-- Admin add-email preserves the email-table invariant (given a fresh id). -/
theorem inv_adminAdd (s : DbState) (tid : Nat) (req : AddEmailReq)
    (ds : Option String) (rn : String) (now : Int) (ne : Nat)
    (hinv : emailNodup s.emails ∧ emailAMO s.emails)
    (hfE : freshEmailId s ne) :
    emailNodup (adminAddEmail s tid req ds rn now ne).2.emails ∧
    emailAMO (adminAddEmail s tid req ds rn now ne).2.emails := by
  rcases adminAddEmail_shape s tid req ds rn now ne with h | ⟨addr, hmap, hperm⟩
  · rw [h]
    exact hinv
  · rw [hmap]
    constructor
    · exact emailNodup_append _ _ hinv.1 (fun e he => hfE e he)
    · apply emailAMO_append _ _ hinv.2
      intro hp
      simp only at hp
      rw [List.countP_eq_zero]
      intro e he
      rw [List.any_eq_false] at hperm
      exact hperm hp e he

/-- Admin update-email preserves the at-most-one-permanent invariant (it can
break the sentinel, but never the uniqueness). -/
theorem inv_adminUpdate (s : DbState) (uid eid : Nat) (req : UpdateEmailReq)
    (ds : Option String) (now : Int)
    (hinv : emailNodup s.emails ∧ emailAMO s.emails) :
    emailNodup (adminUpdateEmail s uid eid req ds now).2.emails ∧
    emailAMO (adminUpdateEmail s uid eid req ds now).2.emails := by
  rcases adminUpdateEmail_shape s uid eid req ds now with
    h | ⟨t, hfind, exp, addrOpt, hmap, hconf⟩
  · rw [h]
    exact hinv
  · rw [hmap]
    have htmem : t ∈ s.emails := List.mem_of_find?_eq_some hfind
    have htprop := List.find?_some hfind
    simp only [Bool.and_eq_true, beq_iff_eq] at htprop
    have hndmap : emailNodup (s.emails.map (fun e => if e.id == eid then
        { e with isPermanent := req.isPermanent.getD e.isPermanent,
                 expiresAt := exp.getD e.expiresAt,
                 address := addrOpt.getD e.address } else e)) := by
      apply emailNodup_map _ _ _ hinv.1
      intro e
      by_cases h : (e.id == eid) = true <;> simp [h]
    refine ⟨hndmap, ?_⟩
    cases hreq : req.isPermanent with
    | none =>
      apply emailAMO_map_le _ _ ?_ ?_ hinv.2
      · intro e
        by_cases h : (e.id == eid) = true <;> simp [h]
      · intro e he hp
        by_cases h : (e.id == eid) = true
        · simpa [h, hreq] using hp
        · simpa [h] using hp
    | some b =>
      cases b with
      | false =>
        apply emailAMO_map_le _ _ ?_ ?_ hinv.2
        · intro e
          by_cases h : (e.id == eid) = true <;> simp [h]
        · intro e he hp
          by_cases h : (e.id == eid) = true
          · simp [h, hreq] at hp
          · simpa [h] using hp
      | true =>
        by_cases hB : t.isPermanent = true
        · apply emailAMO_map_le _ _ ?_ ?_ hinv.2
          · intro e
            by_cases h : (e.id == eid) = true <;> simp [h]
          · intro e he hp
            by_cases h : (e.id == eid) = true
            · have he2 : e = t :=
                email_eq_of_id_eq s.emails hinv.1 e t he htmem
                  ((by simpa using h : e.id = eid).trans htprop.1.symm)
              rw [he2]
              exact hB
            · simpa [h] using hp
        · rcases hconf hreq (by simpa using hB) with hnone | ⟨ex, hfp, hexid⟩
          · apply emailAMO_map_promote s.emails eid uid _ ?_ ?_ ?_ ?_
              hinv.1 hinv.2
            · intro e
              by_cases h : (e.id == eid) = true <;> simp [h]
            · intro e he hne
              simp [hne]
            · intro e he heid
              have he2 : e = t :=
                email_eq_of_id_eq s.emails hinv.1 e t he htmem
                  (heid.trans htprop.1.symm)
              rw [he2]
              exact htprop.2
            · rw [List.countP_eq_zero]
              rw [List.find?_eq_none] at hnone
              exact hnone
          · exfalso
            have hexmem : ex ∈ s.emails := List.mem_of_find?_eq_some hfp
            have hexprop := List.find?_some hfp
            simp only [Bool.and_eq_true, beq_iff_eq] at hexprop
            have he2 : ex = t :=
              email_eq_of_id_eq s.emails hinv.1 ex t hexmem htmem
                (hexid.trans htprop.1.symm)
            rw [he2] at hexprop
            exact hB hexprop.2

/-- The inductive email invariant along `EReach`. -/
theorem EReach_email_inv : ∀ s, EReach s → emailNodup s.emails ∧ emailAMO s.emails := by
  intro s h
  induction h with
  | init s h =>
    rw [h]
    exact ⟨by simp [emailNodup], fun uid => by simp⟩
  | stepActivate s code username pw pe ds now nu nr ne hre hfU hfE ih =>
    exact inv_activate s code username pw pe ds now nu nr ne ih hfU hfE
  | stepPromote s uid eid now hre ih =>
    exact inv_promote s uid eid now ih
  | stepAdminAdd s tid req ds rn now ne hre hfE ih =>
    exact inv_adminAdd s tid req ds rn now ne ih hfE
  | stepAdminUpdate s uid eid req ds now hre ih =>
    exact inv_adminUpdate s uid eid req ds now ih

theorem sent_activate (s : DbState) (code username pw pe : String)
    (ds : Option String) (now : Int) (nu nr ne : Nat)
    (hs : listSentinel s.emails) :
    listSentinel (activate s code username pw pe ds now nu nr ne).2.emails := by
  rcases activate_emails_shape s code username pw pe ds now nu nr ne with h | h
  · rw [h]; exact hs
  · rw [h]
    exact listSentinel_append _ _ hs (fun _ => rfl)

theorem sent_promote (s : DbState) (uid eid : Nat) (now : Int)
    (hs : listSentinel s.emails) :
    listSentinel (setPermanentEmail s uid eid now).2.emails := by
  rcases setPermanentEmail_shape s uid eid now with h | ⟨_, _, hmap⟩
  · rw [h]; exact hs
  · rw [hmap]
    exact listSentinel_promote _ _ hs

theorem sent_adminAdd (s : DbState) (tid : Nat) (req : AddEmailReq)
    (ds : Option String) (rn : String) (now : Int) (ne : Nat)
    (hs : listSentinel s.emails) :
    listSentinel (adminAddEmail s tid req ds rn now ne).2.emails := by
  rcases adminAddEmail_shape s tid req ds rn now ne with h | ⟨addr, hmap, _⟩
  · rw [h]; exact hs
  · rw [hmap]
    apply listSentinel_append _ _ hs
    intro hp
    simp only at hp
    simp [hp]

theorem EReachNoUpdate_sentinel : ∀ s, EReachNoUpdate s → listSentinel s.emails := by
  intro s h
  induction h with
  | init s h =>
    rw [h]
    intro e he
    simp at he
  | stepActivate s code username pw pe ds now nu nr ne hre hfU hfE ih =>
    exact sent_activate s code username pw pe ds now nu nr ne ih
  | stepPromote s uid eid now hre ih =>
    exact sent_promote s uid eid now ih
  | stepAdminAdd s tid req ds rn now ne hre hfE ih =>
    exact sent_adminAdd s tid req ds rn now ne ih

/-- C3 (amended): in every state reachable by the four email operations,
each user has at most one permanent email; the sentinel property
(`expiresAt = 9999-01-01` on permanent emails) holds in every state
reachable without the admin update-email operation — that operation can
give a permanent email a finite expiry (see the counterexample), so the
claim holds only in this restricted form. -/
theorem claimC3_amended :
    (∀ s, EReach s → atMostOnePermanent s) ∧
    (∀ s, EReachNoUpdate s → permanentSentinel s) := by
  constructor
  · intro s h uid
    have hc := (EReach_email_inv s h).2 uid
    unfold permEmailsOf
    rw [← List.countP_eq_length_filter]
    exact hc
  · intro s h
    exact EReachNoUpdate_sentinel s h

/-- A state with one enabled user and no emails. -/
def wC3s0 : DbState := ⟨[⟨1, "u", "p", true⟩], [], [], [], [], []⟩

/-- The admin adds a permanent custom email for user 1. -/
def wC3s1 : DbState :=
  (adminAddEmail wC3s0 1 ⟨true, some "ab", 24⟩ none "xxxxxxxx" 0 10).2

/-- The admin then updates that email with `expiryHours := 24` and no
`isPermanent` field. -/
def wC3s2 : DbState :=
  (adminUpdateEmail wC3s1 1 10 ⟨none, some 24, none⟩ none 0).2

/-- C3 (counterexample): the two-step admin sequence reaches a state whose
single email is permanent with `expiresAt = 86400000` — not the sentinel —
so the claimed invariant fails on a reachable state. -/
theorem claimC3_counterexample :
    EReach wC3s2 ∧ ¬(atMostOnePermanent wC3s2 ∧ permanentSentinel wC3s2) := by
  constructor
  · exact EReach.stepAdminUpdate wC3s1 1 10 ⟨none, some 24, none⟩ none 0
      (EReach.stepAdminAdd wC3s0 1 ⟨true, some "ab", 24⟩ none "xxxxxxxx" 0 10
        (EReach.init wC3s0 rfl)
        (by intro e he; simp [wC3s0] at he))
  · rintro ⟨_, hsent⟩
    have hlen : wC3s2.emails.length = 1 := rfl
    obtain ⟨e, he⟩ := List.length_eq_one.mp hlen
    have hall : wC3s2.emails.all
        (fun e => e.isPermanent && decide (e.expiresAt = 86400000)) = true := rfl
    rw [he] at hall
    simp only [List.all_cons, List.all_nil, Bool.and_true, Bool.and_eq_true,
      decide_eq_true_eq] at hall
    have hbad := hsent e (by rw [he]; exact List.mem_singleton_self e) hall.1
    rw [hall.2] at hbad
    exact absurd hbad (by decide)

/-- C3 (witness): the amended invariants applied to the concrete reachable
states. -/
theorem claimC3_witness :
    atMostOnePermanent wC3s2 ∧ permanentSentinel wC3s1 :=
  ⟨claimC3_amended.1 wC3s2
    (EReach.stepAdminUpdate wC3s1 1 10 ⟨none, some 24, none⟩ none 0
      (EReach.stepAdminAdd wC3s0 1 ⟨true, some "ab", 24⟩ none "xxxxxxxx" 0 10
        (EReach.init wC3s0 rfl)
        (by intro e he; simp [wC3s0] at he))),
   claimC3_amended.2 wC3s1
    (EReachNoUpdate.stepAdminAdd wC3s0 1 ⟨true, some "ab", 24⟩ none
      "xxxxxxxx" 0 10 (EReachNoUpdate.init wC3s0 rfl)
      (by intro e he; simp [wC3s0] at he))⟩


end Moemail
